import Mathlib

/-!
Shallow embedding of the `agent_evo` core runtime: the structured tool-call
parser, the tool executor, the single-agent turn loop, the team delegation
walker, the in-memory filesystem and the judge-response parser, together
with theorems settling the specification claims.  Python strings are
modelled as lists of characters, Python dicts as insertion-ordered
association lists, exceptions as `Except`/`Option` results, and the two
external effectful collaborators (the text-completion service and dynamic
code execution) as explicit oracle parameters.
-/

namespace AgentEvo

abbrev Chars := List Char

/-- The whitespace characters stripped by Python `str.strip` (ASCII range). -/
def pyWS (c : Char) : Bool :=
  c = ' ' || c = '\t' || c = '\n' || c = '\r' || c = '\x0b' || c = '\x0c'

/-- Python `str.strip`: drop leading and trailing whitespace. -/
def strip (l : Chars) : Chars :=
  (l.dropWhile pyWS).rdropWhile pyWS

/-- Python `str.split('\n')`: split into lines at every newline character. -/
def splitLines : Chars → List Chars
  | [] => [[]]
  | c :: rest =>
    if c = '\n' then [] :: splitLines rest
    else
      match splitLines rest with
      | [] => [[c]]
      | l :: ls => (c :: l) :: ls

/-- Python `'\n'.join(...)` on a list of lines. -/
def joinLines : List Chars → Chars
  | [] => []
  | [l] => l
  | l :: ls => l ++ '\n' :: joinLines ls

def isDigitChar (c : Char) : Bool := '0' ≤ c && c ≤ '9'

def natOfDigits (l : Chars) : Nat :=
  l.foldl (fun n c => 10 * n + (c.toNat - '0'.toNat)) 0

/-- Python `int(...)` on already-stripped text (optional sign, decimal digits). -/
def pyInt? : Chars → Option Int
  | [] => Option.none
  | '+' :: rest =>
    if !rest.isEmpty && rest.all isDigitChar then some (natOfDigits rest : Int)
    else Option.none
  | '-' :: rest =>
    if !rest.isEmpty && rest.all isDigitChar then some (-(natOfDigits rest : Int))
    else Option.none
  | l =>
    if l.all isDigitChar then some (natOfDigits l : Int) else Option.none

/-- Python `float(...)` on already-stripped text, restricted to plain decimal
forms with a decimal point (optional sign, integer digits, fractional
digits).  Exponent, infinity and nan spellings are outside the fragment the
program feeds to it here.  Values are kept as exact rationals. -/
def pyDecimal? (l : Chars) : Option Rat :=
  let (neg, body) : Bool × Chars :=
    match l with
    | '+' :: rest => (false, rest)
    | '-' :: rest => (true, rest)
    | l' => (false, l')
  let intPart := body.takeWhile isDigitChar
  match body.drop intPart.length with
  | '.' :: frac =>
    if frac.all isDigitChar && (!intPart.isEmpty || !frac.isEmpty) then
      let num : Int :=
        (natOfDigits intPart : Int) * (10 : Int) ^ frac.length
          + (natOfDigits frac : Int)
      some (mkRat (if neg then -num else num) (10 ^ frac.length))
    else Option.none
  | _ => Option.none

/-- A Python runtime value as produced by argument coercion. -/
inductive PyVal where
  | int (n : Int)
  | float (q : Rat)
  | bool (b : Bool)
  | null
  | str (s : Chars)
deriving DecidableEq, Repr

/-- Insertion into a Python dict modelled as an association list: replace the
value at an existing key in place, otherwise append at the end. -/
def dictInsert {α β : Type} [BEq α] : List (α × β) → α → β → List (α × β)
  | [], k, v => [(k, v)]
  | (k', v') :: rest, k, v =>
    if k' == k then (k, v) :: rest else (k', v') :: dictInsert rest k v

def lowerEq (l : Chars) (s : Chars) : Bool := l.map Char.toLower == s

def tripleQuoteA : Chars := ['"', '"', '"']
def tripleQuoteB : Chars := ['\'', '\'', '\'']

def isTripleQuote (l : Chars) : Bool := l == tripleQuoteA || l == tripleQuoteB

-- markers of the structured tool-call format, as explicit character lists
def btcMarker : Chars := ['B','E','G','I','N','_','T','O','O','L','_','C','A','L','L']
def etcMarker : Chars := ['E','N','D','_','T','O','O','L','_','C','A','L','L']
def baMarker : Chars := ['B','E','G','I','N','_','A','R','G']
def eaMarker : Chars := ['E','N','D','_','A','R','G']

/-- `ToolCallParser._process_arg_value`: join the accumulated lines of one
argument, unwrap a pair of triple-quote-only wrapper lines, and coerce a
single-line body to int / float / bool / null, falling back to the raw
string. -/
def processArgValue (lines : List Chars) : PyVal :=
  match lines with
  | [] => .str []
  | first :: rest =>
    let value0 := joinLines (first :: rest)
    let value :=
      match rest.getLast? with
      | Option.none => value0
      | some last =>
        if isTripleQuote (strip first) && isTripleQuote (strip last) then
          joinLines rest.dropLast
        else value0
    if !value.contains '\n' then
      let s := strip value
      match (if s.contains '.' then (pyDecimal? s).map PyVal.float
             else (pyInt? s).map PyVal.int) with
      | some v => v
      | Option.none =>
        if lowerEq s "true".toList then .bool true
        else if lowerEq s "false".toList then .bool false
        else if lowerEq s "none".toList || lowerEq s "null".toList then .null
        else .str value
    else .str value

/-- One parsed tool call: tool name, coerced argument mapping and the raw
matched text. -/
structure ToolCall where
  tool : Chars
  arguments : List (Chars × PyVal)
  raw : Chars
deriving DecidableEq, Repr

/-- The inner loop of `ToolCallParser.parse_response`: starting just after a
`BEGIN_TOOL_CALL` line, consume lines until an `END_TOOL_CALL` line,
accumulating argument bodies.  Returns the finished argument mapping, the
consumed lines (including the closing line) and the remaining lines, or
`none` when the closing marker never appears. -/
def scanBody (curName : Option Chars) (curLines : List Chars)
    (args : List (Chars × PyVal)) :
    List Chars → Option (List (Chars × PyVal) × List Chars × List Chars)
  | [] => Option.none
  | line :: rest =>
    let stripped := strip line
    if stripped == etcMarker then
      let args' :=
        match curName with
        | some n =>
          if !n.isEmpty && !curLines.isEmpty then
            dictInsert args n (processArgValue curLines)
          else args
        | Option.none => args
      some (args', [line], rest)
    else
      let step :=
        if stripped == eaMarker then
          match curName with
          | some n =>
            scanBody Option.none [] (dictInsert args n (processArgValue curLines)) rest
          | Option.none => scanBody Option.none curLines args rest
        else if baMarker.isPrefixOf stripped then
          scanBody (some (strip (stripped.drop baMarker.length))) [] args rest
        else
          match curName with
          | some _ => scanBody curName (curLines ++ [line]) args rest
          | Option.none => scanBody Option.none curLines args rest
      step.map fun r => (r.1, line :: r.2.1, r.2.2)

/-- The line scanner of `ToolCallParser.parse_response`, with the number
of unprocessed lines as structural fuel (always called with enough): walk
the lines, open a call at every `BEGIN_TOOL_CALL` line carrying a tool
name, and on a successful close drop the call's span from the kept lines.
A call whose closing marker never appears keeps all its lines and ends the
scan. -/
def parseLinesF : Nat → List Chars → List Chars × List ToolCall
  | 0, _ => ([], [])
  | _, [] => ([], [])
  | Nat.succ fuel, line :: rest =>
    let stripped := strip line
    if btcMarker.isPrefixOf stripped then
      let toolName := strip (stripped.drop btcMarker.length)
      if toolName.isEmpty then
        let p := parseLinesF fuel rest
        (line :: p.1, p.2)
      else
        match scanBody Option.none [] [] rest with
        | some (args, consumed, rest') =>
          let p := parseLinesF fuel rest'
          (p.1, ⟨toolName, args, joinLines (line :: consumed)⟩ :: p.2)
        | Option.none => (line :: rest, [])
    else
      let p := parseLinesF fuel rest
      (line :: p.1, p.2)

def parseLines (l : List Chars) : List Chars × List ToolCall :=
  parseLinesF l.length l

/-- `ToolCallParser.parse_response`: split the response into lines, extract
the tool calls, remove the consumed spans and strip the remainder. -/
def parse_response (response : String) : String × List ToolCall :=
  let lines := splitLines response.toList
  let p := parseLines lines
  (String.mk (strip (joinLines p.1)), p.2)

/-- Description of one call block of the structured format: a tool name and
named argument blocks, each argument a list of body lines. -/
structure CallBlock where
  tool : Chars
  args : List (Chars × List Chars)
deriving DecidableEq, Repr

/-- A response decomposed into plain text lines and call blocks. -/
inductive Segment where
  | text (line : Chars)
  | call (b : CallBlock)
deriving DecidableEq, Repr

def renderArg (a : Chars × List Chars) : List Chars :=
  (baMarker ++ ' ' :: a.1) :: a.2 ++ [eaMarker]

def renderCall (b : CallBlock) : List Chars :=
  (btcMarker ++ ' ' :: b.tool) :: (b.args.map renderArg).flatten ++ [etcMarker]

def renderSegment : Segment → List Chars
  | .text l => [l]
  | .call b => renderCall b

def renderLines (segs : List Segment) : List Chars :=
  (segs.map renderSegment).flatten

/-- The response text denoted by a list of segments. -/
def renderResponse (segs : List Segment) : String :=
  String.mk (joinLines (renderLines segs))

def markers : List Chars := [btcMarker, etcMarker, baMarker, eaMarker]

/-- A plain text line: no newline, and none of the call markers occurs in
it as a substring. -/
def WfText (l : Chars) : Prop :=
  '\n' ∉ l ∧ ∀ m ∈ markers, ¬ m <:+: l

/-- An argument body line: no newline, does not close the argument or the
call, and does not open a new argument. -/
def WfBodyLine (l : Chars) : Prop :=
  '\n' ∉ l ∧ strip l ≠ etcMarker ∧ strip l ≠ eaMarker ∧ ¬ baMarker <+: strip l

/-- A well-formed argument block: a nonempty strip-invariant name without
newlines, and well-formed body lines. -/
def WfArg (a : Chars × List Chars) : Prop :=
  a.1 ≠ [] ∧ strip a.1 = a.1 ∧ '\n' ∉ a.1 ∧ ∀ l ∈ a.2, WfBodyLine l

/-- A well-formed call block: strip-invariant nonempty tool name without
newlines, pairwise distinct argument names, well-formed argument blocks. -/
def WfCall (b : CallBlock) : Prop :=
  b.tool ≠ [] ∧ strip b.tool = b.tool ∧ '\n' ∉ b.tool ∧
    (b.args.map Prod.fst).Nodup ∧ ∀ a ∈ b.args, WfArg a

def WfSegment : Segment → Prop
  | .text l => WfText l
  | .call b => WfCall b

/-- The argument mapping the parser builds for a sequence of argument
blocks, starting from a given accumulated mapping. -/
def buildArgsFrom (m : List (Chars × PyVal)) (args : List (Chars × List Chars)) :
    List (Chars × PyVal) :=
  args.foldl (fun m' a => dictInsert m' a.1 (processArgValue a.2)) m

/-- The `ToolCall` the parser is expected to emit for one block. -/
def expectedCall (b : CallBlock) : ToolCall :=
  ⟨b.tool, buildArgsFrom [] b.args, joinLines (renderCall b)⟩

def textLines (segs : List Segment) : List Chars :=
  segs.filterMap fun s => match s with | .text l => some l | .call _ => Option.none

def callBlocks (segs : List Segment) : List CallBlock :=
  segs.filterMap fun s => match s with | .text _ => Option.none | .call b => some b

instance (l : Chars) : Decidable (WfText l) := by unfold WfText; infer_instance

instance (l : Chars) : Decidable (WfBodyLine l) := by unfold WfBodyLine; infer_instance

instance (a : Chars × List Chars) : Decidable (WfArg a) := by unfold WfArg; infer_instance

instance (b : CallBlock) : Decidable (WfCall b) := by unfold WfCall; infer_instance

instance (s : Segment) : Decidable (WfSegment s) :=
  match s with
  | .text l => (inferInstance : Decidable (WfText l))
  | .call b => (inferInstance : Decidable (WfCall b))

-- ------------------------------------------------------------------
-- tool registry and executor (`models/tool.py`, `core/tool_executor.py`)
-- ------------------------------------------------------------------

/-- A Python-level outcome of running external code: a returned value, or a
raised exception carrying its type name, message and formatted traceback. -/
inductive PyResult (α : Type) where
  | ok (v : α)
  | exn (kind msg tb : String)
deriving Repr, DecidableEq

/-- A declared tool parameter (name, required flag, optional default); the
declared type and description strings play no role in execution. -/
structure ToolParameter where
  name : String
  required : Bool := true
  default : Option PyVal := Option.none
deriving Repr, DecidableEq

/-- The executor-facing model of a `Tool`: the declared interface together
with oracles for the two dynamic steps — `exec` of the tool's code string
(which defines a set of names in the local context, or raises) and the call
of the bound function on the final keyword arguments (which returns a
value, or raises).  `nameErrorTb` is the traceback format of the
`ValueError` raised when the code does not define the expected function. -/
structure ToolModel where
  name : String
  parameters : List ToolParameter
  execOutcome : PyResult (List String)
  nameErrorTb : String := ""
  call : List (String × PyVal) → PyResult PyVal

/-- The structured result dictionary returned by the executor. -/
structure ExecResult where
  success : Bool
  result : Option PyVal
  error : Option String
deriving Repr, DecidableEq

/-- The `except` branch of `execute_tool`:
`{"success": False, "result": None, "error": f"{kind}: {msg}\n{traceback}"}`. -/
def execFailure (kind msg tb : String) : ExecResult :=
  ⟨false, Option.none, some (kind ++ ": " ++ msg ++ "\n" ++ tb)⟩

/-- The keyword-argument dictionary built by `execute_tool`: for each
declared parameter that is supplied or has a non-null default, the supplied
value if present else the default. -/
def kwArgs (tool : ToolModel) (arguments : List (String × PyVal)) :
    List (String × PyVal) :=
  tool.parameters.foldl
    (fun m p =>
      if (arguments.lookup p.name).isSome || p.default.isSome then
        dictInsert m p.name ((arguments.lookup p.name).getD (p.default.getD .null))
      else m) []

/-- `ToolExecutor.execute_tool`: run the tool code, look up the function it
must define (the argument names are also in the local context), build the
keyword arguments and call it; any raise in any step is caught and turned
into a structured failure result. -/
def execute_tool (tool : ToolModel) (arguments : List (String × PyVal)) :
    ExecResult :=
  match tool.execOutcome with
  | .exn k m tb => execFailure k m tb
  | .ok defined =>
    if tool.name ∈ arguments.map Prod.fst ++ defined then
      match tool.call (kwArgs tool arguments) with
      | .ok v => ⟨true, some v, Option.none⟩
      | .exn k m tb => execFailure k m tb
    else
      execFailure "ValueError"
        ("Tool code must define a function named '" ++ tool.name ++ "'")
        tool.nameErrorTb

/-- `ToolExecutor.validate_arguments`: collect every required,
default-free parameter missing from the supplied arguments; if any,
return one combined message naming all of them. -/
def validate_arguments (tool : ToolModel) (arguments : List (String × PyVal)) :
    Option String :=
  let missing := (tool.parameters.filter fun p =>
    p.required && (arguments.lookup p.name).isNone && p.default.isNone).map
      ToolParameter.name
  if missing.isEmpty then Option.none
  else some ("Missing required arguments: " ++ String.intercalate ", " missing)

-- ------------------------------------------------------------------
-- single-agent turn loop (`core/agent_runner.py`)
-- ------------------------------------------------------------------

/-- An agent configuration (`models/agent.py`). -/
structure Agent where
  id : String
  name : String
  system_prompt : String
  tool_ids : List String := []
  model : String := "gpt-4o"
  temperature : Rat := 1
  max_retries : Nat := 3
deriving Repr, DecidableEq

structure Message where
  role : String
  content : String
deriving Repr, DecidableEq

/-- A shared-transcript entry tagged with the originating agent. -/
structure TeamMsg where
  agent_id : String
  agent_name : String
  role : String
  content : String
deriving Repr, DecidableEq

structure Delegation where
  to_agent : String
  task : String
deriving Repr, DecidableEq

/-- One per-call entry of the tool-results list: either an error dictionary
(unknown tool or failed validation, no `result` key) or an execution entry
holding the executor's structured result. -/
inductive ToolResultEntry where
  | errEntry (tool : String) (error : String)
  | execEntry (tool : String) (arguments : List (Chars × PyVal)) (result : ExecResult)
deriving Repr, DecidableEq

/-- `r.get("result", {}).get("success", False)` on a tool-results entry. -/
def entrySuccess : ToolResultEntry → Bool
  | .errEntry .. => false
  | .execEntry _ _ r => r.success

/-- One recorded iteration of the turn loop; the `delegation` key is only
present on the iteration that delegated. -/
structure HistEntry where
  iteration : Nat
  response : String
  tool_calls : List ToolCall
  delegation : Option Delegation
  finished : Bool
deriving Repr, DecidableEq

/-- The dictionary returned by `run_agent`. -/
structure AgentResult where
  agent_id : String
  agent_name : String
  final_response : String
  history : List HistEntry
  messages : List Message
  iterations : Nat
  delegation : Option Delegation
  finished : Bool
deriving Repr, DecidableEq

/-- Oracles for the runner's effectful collaborators: the text-completion
service, the default tool catalog bound to the ambient filesystem, and the
prompt strings built by template code and directory inspection outside the
modelled core. -/
structure RunEnv where
  generate : List Message → String
  defaultTools : List (String × ToolModel) := []
  buildSystemPrompt : Agent → List String → String
  buildTaskMessage : String → List TeamMsg → String
  formatToolResults : List ToolResultEntry → String
  continuePrompt : String

-- delegation marker parsing (`AgentRunner._parse_delegation`)

/-- Python `\w` on the ASCII range: letters, digits and underscore. -/
def isWordChar (c : Char) : Bool :=
  ('a' ≤ c && c ≤ 'z') || ('A' ≤ c && c ≤ 'Z') || isDigitChar c || c = '_'

/-- Consume a literal, or fail. -/
def dropLit : Chars → Chars → Option Chars
  | [], l => some l
  | _ :: _, [] => Option.none
  | a :: as, c :: cs => if c = a then dropLit as cs else Option.none

/-- Consume a literal case-insensitively (the literal given in lower case). -/
def dropLitCI : Chars → Chars → Option Chars
  | [], l => some l
  | _ :: _, [] => Option.none
  | a :: as, c :: cs => if c.toLower = a then dropLitCI as cs else Option.none

def skipWS (l : Chars) : Chars := l.dropWhile pyWS

/-- The lazy group `(.+?)(?=\[DELEGATE:|$)` with `DOTALL`: the shortest
nonempty prefix whose remainder is empty or starts the next marker. -/
def lazyUntil : Chars → Option Chars
  | [] => Option.none
  | c :: rest =>
    if rest.isEmpty || ("[DELEGATE:".toList).isPrefixOf rest then some [c]
    else (lazyUntil rest).map (c :: ·)

/-- Backtracking of the greedy `\s*` preceding the lazy task group: try the
longest whitespace skip first, then shorter ones. -/
def delegTaskGo (r : Chars) : Nat → Option Chars
  | 0 => lazyUntil r
  | Nat.succ k =>
    match lazyUntil (r.drop (k + 1)) with
    | some t => some t
    | Option.none => delegTaskGo r k

def delegTask (r : Chars) : Option Chars :=
  delegTaskGo r (r.takeWhile pyWS).length

/-- Match `\[DELEGATE:\s*(\w+)\]\s*(.+?)(?=\[DELEGATE:|$)` at one
position. -/
def matchDelegAt (l : Chars) : Option (Chars × Chars) := do
  let r1 ← dropLit ("[DELEGATE:".toList) l
  let r2 := skipWS r1
  let name := r2.takeWhile isWordChar
  if name.isEmpty then Option.none
  else do
    let r3 ← dropLit [']'] (r2.drop name.length)
    let task ← delegTask r3
    pure (name, task)

/-- `re.search`: try the pattern at every position, leftmost match first. -/
def searchDeleg : Chars → Option (Chars × Chars)
  | [] => matchDelegAt []
  | l@(_ :: rest) =>
    match matchDelegAt l with
    | some r => some r
    | Option.none => searchDeleg rest

/-- `AgentRunner._parse_delegation`. -/
def parse_delegation (response : String) : Option Delegation :=
  (searchDeleg response.toList).map fun r =>
    ⟨String.mk r.1, String.mk (strip r.2)⟩

/-- `AgentRunner._is_finished`: `"<FINISHED>" in response`. -/
def is_finished (response : String) : Bool :=
  decide (("<FINISHED>".toList) <:+: response.toList)

/-- The tool-availability computation of `run_agent`: all tools are the
defaults updated with the custom tools; the tools available to the agent
are the defaults plus the non-default custom tools the agent declares. -/
def availableToolsFor (defaults customs : List (String × ToolModel))
    (agent : Agent) : List (String × ToolModel) :=
  let all_tools := customs.foldl (fun m kv => dictInsert m kv.1 kv.2) defaults
  all_tools.foldl
    (fun m kv =>
      if agent.tool_ids.contains kv.1 && (defaults.lookup kv.1).isNone then
        dictInsert m kv.1 kv.2
      else m) defaults

/-- One tool call inside an iteration: resolve the tool by name against the
available catalog, validate the arguments, execute. -/
def execOneCall (availableTools : List ToolModel) (tc : ToolCall) :
    ToolResultEntry :=
  let toolName := String.mk tc.tool
  let argumentsS := tc.arguments.map fun a => (String.mk a.1, a.2)
  match availableTools.filter (fun t => t.name == toolName) with
  | [] => .errEntry toolName ("Tool '" ++ toolName ++ "' not found")
  | tool :: _ =>
    match validate_arguments tool argumentsS with
    | some err => .errEntry toolName err
    | Option.none => .execEntry toolName tc.arguments (execute_tool tool argumentsS)

structure LoopState where
  messages : List Message
  history : List HistEntry
  iteration : Nat
  delegation : Option Delegation
  finished : Bool
deriving Repr, DecidableEq

/-- The condition of the retry check after tool execution:
`not all_success and iteration <= agent.max_retries`, where `iteration` is
the loop's total iteration counter. -/
def toolRetryGate (allSuccess : Bool) (iteration maxRetries : Nat) : Bool :=
  !allSuccess && decide (iteration ≤ maxRetries)

/-- The iteration loop of `run_agent`, with the remaining iteration budget
as fuel (`iteration = max_iterations - fuel`).  Note that after an
iteration containing tool calls both branches of the retry check
`continue`. -/
def runLoop (env : RunEnv) (agent : Agent) (tools : List ToolModel) :
    Nat → LoopState → LoopState
  | 0, st => st
  | Nat.succ fuel, st =>
    let iteration := st.iteration + 1
    let response := env.generate st.messages
    let tool_calls := (parse_response response).2
    if tool_calls.isEmpty then
      match parse_delegation response with
      | some d =>
        ⟨st.messages ++ [⟨"assistant", response⟩],
         st.history ++ [⟨iteration, response, [], some d, false⟩],
         iteration, some d, st.finished⟩
      | Option.none =>
        let fin := is_finished response
        let history := st.history ++ [⟨iteration, response, [], Option.none, fin⟩]
        if fin then
          ⟨st.messages ++ [⟨"assistant", response⟩], history, iteration,
           st.delegation, true⟩
        else
          runLoop env agent tools fuel
            ⟨st.messages ++ [⟨"assistant", response⟩, ⟨"user", env.continuePrompt⟩],
             history, iteration, st.delegation, false⟩
    else
      let tool_results := tool_calls.map (execOneCall tools)
      let messages := st.messages ++
        [⟨"assistant", response⟩, ⟨"user", env.formatToolResults tool_results⟩]
      let history := st.history ++
        [⟨iteration, response, tool_calls, Option.none, false⟩]
      let st' : LoopState := ⟨messages, history, iteration, st.delegation, st.finished⟩
      if toolRetryGate (tool_results.all entrySuccess) iteration agent.max_retries then
        runLoop env agent tools fuel st'
      else
        runLoop env agent tools fuel st'

/-- `AgentRunner.run_agent`: compose the system and task messages, run the
iteration loop, and package the result; `final_response` reads
`messages[-2]` when more than two messages exist. -/
def run_agent (env : RunEnv) (agent : Agent) (task : String)
    (tools : List (String × ToolModel)) (available_agents : List String)
    (chat_history : List TeamMsg) (max_iterations : Nat) : AgentResult :=
  let availableTools :=
    (availableToolsFor env.defaultTools tools agent).map Prod.snd
  let system_prompt := env.buildSystemPrompt agent available_agents
  let user_message := env.buildTaskMessage task chat_history
  let messages : List Message := [⟨"system", system_prompt⟩, ⟨"user", user_message⟩]
  let final := runLoop env agent availableTools max_iterations
    ⟨messages, [], 0, Option.none, false⟩
  { agent_id := agent.id
    agent_name := agent.name
    final_response :=
      if 2 < final.messages.length then
        (final.messages.getD (final.messages.length - 2) ⟨"", ""⟩).content
      else "No response"
    history := final.history
    messages := final.messages.drop 1
    iterations := final.iteration
    delegation := final.delegation
    finished := final.finished }

-- ------------------------------------------------------------------
-- team model and delegation walker (`models/team.py`, `core/team_runner.py`)
-- ------------------------------------------------------------------

structure TeamEdge where
  from_agent : String
  to_agent : String
  description : Option String := Option.none
deriving Repr, DecidableEq

structure Team where
  id : String
  name : String
  description : String
  agent_ids : List String
  edges : List TeamEdge
  entry_point : String
deriving Repr, DecidableEq

/-- `Team.get_neighbors`. -/
def get_neighbors (team : Team) (agent_id : String) : List String :=
  (team.edges.filter fun e => e.from_agent == agent_id).map TeamEdge.to_agent

/-- The per-edge checks of `Team.validate`, raising on the first violation. -/
def validateEdges (agent_ids : List String) : List TeamEdge → Except String Bool
  | [] => .ok true
  | e :: rest =>
    if agent_ids.contains e.from_agent = false then
      .error ("Edge from_agent " ++ e.from_agent ++ " not in agent list")
    else if agent_ids.contains e.to_agent = false then
      .error ("Edge to_agent " ++ e.to_agent ++ " not in agent list")
    else validateEdges agent_ids rest

/-- `Team.validate`: entry point and every edge endpoint must be members;
a violation raises `ValueError`. -/
def validate (team : Team) : Except String Bool :=
  if team.agent_ids.contains team.entry_point = false then
    .error ("Entry point " ++ team.entry_point ++ " not in agent list")
  else validateEdges team.agent_ids team.edges

/-- The agent-existence loop at the top of `run_team`. -/
def checkAgents (agents : List (String × Agent)) : List String → Except String Unit
  | [] => .ok ()
  | aid :: rest =>
    if (agents.lookup aid).isNone then .error ("Agent " ++ aid ++ " not found")
    else checkAgents agents rest

structure ExecHistEntry where
  round : Nat
  agent_id : String
  agent_name : String
  task : String
  result : AgentResult
deriving Repr, DecidableEq

/-- The dictionary returned by `run_team`. -/
structure TeamResult where
  team_id : String
  team_name : String
  execution_history : List ExecHistEntry
  chat_history : List TeamMsg
  agent_outputs : List (String × String)
  rounds : Nat
deriving Repr, DecidableEq

/-- The `TypeError` raised by each round of `run_team` as written: the call
`run_agent(agent=..., task=..., available_agents=..., chat_history=...)`
omits the required positional parameter `tools` of
`AgentRunner.run_agent`. -/
def typeErrorMissingTools : String :=
  "TypeError: run_agent() missing 1 required positional argument: 'tools'"

/-- The round loop of `run_team` as written: index bookkeeping and the
cycle guard are reached, but running the selected agent raises the
`TypeError` above before any turn executes.  Returns the final chat
transcript, execution history and the last value of the round counter. -/
def teamWalk (env : RunEnv) (team : Team) (agents : List (String × Agent)) :
    Nat → Nat → Option String → String → List String → List TeamMsg →
    List ExecHistEntry → Except String (List TeamMsg × List ExecHistEntry × Nat)
  | 0, roundNum, _, _, _, chat, hist => .ok (chat, hist, roundNum - 1)
  | Nat.succ _, roundNum, current, _, visited, chat, hist =>
    match current with
    | Option.none => .ok (chat, hist, roundNum)
    | some aid =>
      if visited.contains aid then .ok (chat, hist, roundNum)
      else
        match agents.lookup aid with
        | Option.none => .error "KeyError"
        | some _ => .error typeErrorMissingTools

/-- The round loop of `run_team` with the missing-argument slip repaired:
the intended call passes no custom tools (the runner adds the default
catalog itself), matching the comment `(no tools parameter needed)` at the
call site.  Everything else follows the source line by line: cycle guard,
delegation validation, auto-delegation to the first unvisited neighbour,
and the synthesized continuation task. -/
def teamWalkFixed (env : RunEnv) (team : Team) (agents : List (String × Agent)) :
    Nat → Nat → Option String → String → List String → List TeamMsg →
    List ExecHistEntry → Except String (List TeamMsg × List ExecHistEntry × Nat)
  | 0, roundNum, _, _, _, chat, hist => .ok (chat, hist, roundNum - 1)
  | Nat.succ fuel, roundNum, current, task, visited, chat, hist =>
    match current with
    | Option.none => .ok (chat, hist, roundNum)
    | some aid =>
      if visited.contains aid then .ok (chat, hist, roundNum)
      else
        match agents.lookup aid with
        | Option.none => .error "KeyError"
        | some agent =>
          let visited' := aid :: visited
          let available := get_neighbors team aid
          let result := run_agent env agent task [] available chat 10
          let chat' := chat ++ result.messages.map fun msg =>
            (⟨aid, agent.name, msg.role, msg.content⟩ : TeamMsg)
          let hist' := hist ++ [⟨roundNum, aid, agent.name, task, result⟩]
          match result.delegation with
          | some d =>
            if available.contains d.to_agent = false then
              .ok (chat', hist', roundNum)
            else if (agents.lookup d.to_agent).isNone then
              .ok (chat', hist', roundNum)
            else
              teamWalkFixed env team agents fuel (roundNum + 1) (some d.to_agent)
                d.task visited' chat' hist'
          | Option.none =>
            match available.filter (fun x => !visited'.contains x) with
            | [] => .ok (chat', hist', roundNum)
            | next :: _ =>
              match agents.lookup next with
              | Option.none => .error "KeyError"
              | some _ =>
                teamWalkFixed env team agents fuel (roundNum + 1) (some next)
                  ("Continue the work from " ++ agent.name ++ ". Previous output: "
                    ++ String.mk (result.final_response.toList.take 200) ++ "...")
                  visited' chat' hist'

/-- Package the walk's accumulators into the returned dictionary. -/
def packTeamResult (team : Team)
    (w : List TeamMsg × List ExecHistEntry × Nat) : TeamResult :=
  ⟨team.id, team.name, w.2.1, w.1,
   w.2.1.foldl (fun m e => dictInsert m e.agent_id e.result.final_response) [],
   w.2.2 + 1⟩

/-- `TeamRunner.run_team` as written: validate, check agent resolution,
then walk (each executed round raising the missing-`tools` `TypeError`). -/
def run_team (env : RunEnv) (team : Team) (task : String)
    (agents : List (String × Agent)) (max_rounds : Nat) :
    Except String TeamResult := do
  let _ ← validate team
  let _ ← checkAgents agents team.agent_ids
  match teamWalk env team agents max_rounds 0 (some team.entry_point) task [] [] [] with
  | .error e => .error e
  | .ok w => .ok (packTeamResult team w)

/-- `TeamRunner.run_team` with the missing-argument slip repaired. -/
def run_team_fixed (env : RunEnv) (team : Team) (task : String)
    (agents : List (String × Agent)) (max_rounds : Nat) :
    Except String TeamResult := do
  let _ ← validate team
  let _ ← checkAgents agents team.agent_ids
  match teamWalkFixed env team agents max_rounds 0 (some team.entry_point) task [] [] [] with
  | .error e => .error e
  | .ok w => .ok (packTeamResult team w)

-- ------------------------------------------------------------------
-- in-memory filesystem (`core/filesystem.py`)
-- ------------------------------------------------------------------

/-- `str.split` on a single separator character. -/
def splitOnChar (sep : Char) : Chars → List Chars
  | [] => [[]]
  | c :: rest =>
    if c = sep then [] :: splitOnChar sep rest
    else
      match splitOnChar sep rest with
      | [] => [[c]]
      | l :: ls => (c :: l) :: ls

/-- `sep.join` on a list of components. -/
def intercalateChar (sep : Char) : List Chars → Chars
  | [] => []
  | [l] => l
  | l :: ls => l ++ sep :: intercalateChar sep ls

/-- `str(Path(p))` for POSIX paths in the forms the program uses: collapse
repeated separators, drop `.` components, keep `..`, preserve a root slash
(and the special exactly-two-slash root), render the empty path as `.`. -/
def normPath (p : String) : String :=
  let cs := p.toList
  let comps := (splitOnChar '/' cs).filter fun c => c != [] && c != ['.']
  let root : Chars :=
    if cs.take 2 = ['/', '/'] ∧ cs.take 3 ≠ ['/', '/', '/'] then ['/', '/']
    else if cs.take 1 = ['/'] then ['/']
    else []
  let body := intercalateChar '/' comps
  if root = [] ∧ body = [] then "." else String.mk (root ++ body)

/-- The in-memory filesystem: a path-keyed store. -/
structure FileSystem where
  files : List (String × String)
deriving Repr, DecidableEq

/-- `FileSystem.read_file`: raises `FileNotFoundError` for an absent path,
otherwise returns a success message embedding the stored content. -/
def read_file (fs : FileSystem) (file_path : String) : Except String String :=
  let fp := normPath file_path
  match fs.files.lookup fp with
  | Option.none => .error ("File not found: " ++ fp)
  | some content =>
    .ok ("Successfully read " ++ toString content.length ++ " characters from "
      ++ fp ++ "\n\nContent:\n" ++ content)

/-- `FileSystem.write_file`: mode `w` stores the content, mode `a` appends
to any existing content; any other mode raises `ValueError`. -/
def write_file (fs : FileSystem) (file_path content : String) (mode : String) :
    Except String (FileSystem × String) :=
  let fp := normPath file_path
  if !(mode == "w") && !(mode == "a") then
    .error ("Invalid mode: " ++ mode ++ ". Use 'w' for write or 'a' for append")
  else
    let newContent :=
      if mode == "w" then content
      else
        match fs.files.lookup fp with
        | some old => old ++ content
        | Option.none => content
    let action := if mode == "w" then "overwrote" else "appended to"
    .ok (⟨dictInsert fs.files fp newContent⟩,
      "Successfully " ++ action ++ " " ++ fp ++ ". Wrote "
        ++ toString content.length ++ " characters.")

/-- `FileSystem.exists`. -/
def existsFile (fs : FileSystem) (file_path : String) : Bool :=
  (fs.files.lookup (normPath file_path)).isSome

-- ------------------------------------------------------------------
-- judge response parsing (`core/one_shot_judge.py`, `core/evaluator.py`)
-- ------------------------------------------------------------------

/-- Greedy `(\d+(?:\.\d+)?)` at one position: maximal digits, then an
optional fraction taken only when the dot is followed by a digit.  Returns
the captured characters and the rest. -/
def matchNumber (l : Chars) : Option (Chars × Chars) :=
  let ds := l.takeWhile isDigitChar
  if ds.isEmpty then Option.none
  else
    let rest := l.drop ds.length
    match rest with
    | '.' :: r2 =>
      let fs := r2.takeWhile isDigitChar
      if fs.isEmpty then some (ds, rest)
      else some (ds ++ '.' :: fs, r2.drop fs.length)
    | _ => some (ds, rest)

/-- `Score:\s*(\d+(?:\.\d+)?)\s*/\s*10` at one position (IGNORECASE). -/
def matchScoreSlashSp (l : Chars) : Option Chars := do
  let r1 ← dropLitCI ("score:".toList) l
  let (num, r3) ← matchNumber (skipWS r1)
  let r5 ← dropLit ['/'] (skipWS r3)
  let _ ← dropLit ['1', '0'] (skipWS r5)
  pure num

/-- `Score:\s*(\d+(?:\.\d+)?)/10` at one position (IGNORECASE). -/
def matchScoreSlashNoSp (l : Chars) : Option Chars := do
  let r1 ← dropLitCI ("score:".toList) l
  let (num, r3) ← matchNumber (skipWS r1)
  let _ ← dropLit ("/10".toList) r3
  pure num

/-- `Score:\s*(\d+(?:\.\d+)?)` at one position (IGNORECASE). -/
def matchScoreBare (l : Chars) : Option Chars := do
  let r1 ← dropLitCI ("score:".toList) l
  let (num, _) ← matchNumber (skipWS r1)
  pure num

/-- `(\d+(?:\.\d+)?)\s*/\s*10` at one position. -/
def matchSlash10 (l : Chars) : Option Chars := do
  let (num, r1) ← matchNumber l
  let r2 ← dropLit ['/'] (skipWS r1)
  let _ ← dropLit ['1', '0'] (skipWS r2)
  pure num

/-- `re.search` for a capturing pattern: try every position, leftmost
match first. -/
def searchPat (pat : Chars → Option Chars) : Chars → Option Chars
  | [] => pat []
  | l@(_ :: rest) =>
    match pat l with
    | some r => some r
    | Option.none => searchPat pat rest

/-- `float` of a captured score (digits with an optional fraction), kept
as an exact rational. -/
def decimalOfDigits (l : Chars) : Rat :=
  let ip := l.takeWhile isDigitChar
  match l.drop ip.length with
  | '.' :: frac =>
    mkRat ((natOfDigits ip : Int) * (10 : Int) ^ frac.length
      + (natOfDigits frac : Int)) (10 ^ frac.length)
  | _ => mkRat (natOfDigits ip : Int) 1

/-- The ordered score-pattern attempts of `OneShotJudge._parse_evaluation`:
`Score: X/10` with and without surrounding spaces, `Score: X`, bare
`X/10`; the first pattern that matches anywhere wins. -/
def extractScore (cs : Chars) : Option Chars :=
  match searchPat matchScoreSlashSp cs with
  | some r => some r
  | Option.none =>
    match searchPat matchScoreSlashNoSp cs with
    | some r => some r
    | Option.none =>
      match searchPat matchScoreBare cs with
      | some r => some r
      | Option.none => searchPat matchSlash10 cs

/-- `Reasoning:\s*(.+)` with IGNORECASE and DOTALL at one position,
composed with the `.strip()` applied to the capture: the greedy `\s*` and
the one-whitespace backtracked capture strip to the same text, and the
match fails only when nothing at all follows the label. -/
def matchReasoningAt (l : Chars) : Option Chars := do
  let r ← dropLitCI ("reasoning:".toList) l
  if r.isEmpty then Option.none else some (strip r)

/-- `response.split('\n', 1)[-1]`. -/
def splitOnceTail (cs : Chars) : Chars :=
  match cs.dropWhile (fun c => c != '\n') with
  | [] => cs
  | _ :: rest => rest

/-- A judge parse failure (`ValueError`), carrying its data. -/
inductive JudgeError where
  | noScore (snippet : Chars)
  | outOfRange (score : Rat)
deriving Repr, DecidableEq

/-- `OneShotJudge._parse_evaluation`: attempt the score patterns in order;
no match is a fatal parse error (carrying the first 200 characters of the
response); an extracted score outside `[0, 10]` is a fatal error, not
clamped; the reasoning is the labelled section, falling back to everything
after the first line. -/
def parse_evaluation (response : String) : Except JudgeError (Rat × String) :=
  let cs := response.toList
  match extractScore cs with
  | Option.none => .error (.noScore (cs.take 200))
  | some numStr =>
    let score := decimalOfDigits numStr
    if ¬ (0 ≤ score ∧ score ≤ 10) then .error (.outOfRange score)
    else
      let reasoning :=
        match searchPat matchReasoningAt cs with
        | some r => r
        | Option.none => strip (splitOnceTail cs)
      .ok (score, String.mk reasoning)

/-- `TeamEvaluator._parse_judge_response`, the older judge-response parser:
`Score: X/10` then bare `X/10`, substituting the default score `5.0` when
neither matches; no range validation; the reasoning falls back to the whole
response. -/
def parse_judge_response (response : String) : Rat × String :=
  let cs := response.toList
  let score :=
    match searchPat matchScoreSlashSp cs with
    | some num => decimalOfDigits num
    | Option.none =>
      match searchPat matchSlash10 cs with
      | some num => decimalOfDigits num
      | Option.none => (5 : Rat)
  let reasoning :=
    match searchPat matchReasoningAt cs with
    | some r => r
    | Option.none => cs
  (score, String.mk reasoning)

-- ------------------------------------------------------------------
-- the specification's retry accounting, for comparison with the code's
-- ------------------------------------------------------------------

/-- Modelled from the spec: the number of consecutive tool-failure
iterations at the end of the run so far, "resetting on success"
(`flags` lists each tool iteration's all-tools-succeeded flag in order). -/
def specConsecutiveFailures (flags : List Bool) : Nat :=
  (flags.reverse.takeWhile (fun b => !b)).length

/-- Modelled from the spec: the retry bound as the claim states it —
"max_retries bounds consecutive tool-failure retries … resetting on
success, not total iterations". -/
def specRetryWithinBound (flags : List Bool) (maxRetries : Nat) : Bool :=
  decide (specConsecutiveFailures flags ≤ maxRetries)

-- ------------------------------------------------------------------
-- concrete configurations used by the witnesses
-- ------------------------------------------------------------------

instance {ε α : Type} [DecidableEq ε] [DecidableEq α] :
    DecidableEq (Except ε α) := fun a b =>
  match a, b with
  | .ok x, .ok y =>
    match decEq x y with
    | isTrue h => isTrue (h ▸ rfl)
    | isFalse h => isFalse fun he => h (Except.ok.injEq .. ▸ he)
  | .error x, .error y =>
    match decEq x y with
    | isTrue h => isTrue (h ▸ rfl)
    | isFalse h => isFalse fun he => h (Except.error.injEq .. ▸ he)
  | .ok _, .error _ => isFalse fun he => Except.noConfusion he
  | .error _, .ok _ => isFalse fun he => Except.noConfusion he

/-- A tool whose bound function raises on every call. -/
def c2Tool : ToolModel :=
  { name := "boom"
    parameters := [⟨"x", true, Option.none⟩]
    execOutcome := .ok ["boom"]
    nameErrorTb := "tb0"
    call := fun _ => .exn "ValueError" "bad" "tb1" }

/-- An oracle whose completion is always one failing tool call (the tool
is unknown to the empty catalog, so the call entry is an error entry). -/
def c3Env : RunEnv :=
  { generate := fun _ => "BEGIN_TOOL_CALL t\nBEGIN_ARG x\n1\nEND_ARG\nEND_TOOL_CALL"
    buildSystemPrompt := fun _ _ => "S"
    buildTaskMessage := fun t _ => t
    formatToolResults := fun _ => "R"
    continuePrompt := "C" }

def c3State : LoopState :=
  ⟨[⟨"system", "S"⟩, ⟨"user", "T"⟩], [], 0, Option.none, false⟩

def c3Agent : Agent := ⟨"a", "A", "p", [], "m", 1, 0⟩

/-- An oracle whose completion immediately carries the finish marker. -/
def c8Env : RunEnv :=
  { generate := fun _ => "done <FINISHED>"
    buildSystemPrompt := fun _ _ => "SYS"
    buildTaskMessage := fun t _ => "TASK " ++ t
    formatToolResults := fun _ => ""
    continuePrompt := "CONT" }

def c8Agent : Agent := ⟨"a1", "Agent One", "p", [], "m", 1, 3⟩

/-- An oracle for C7: the completion is an unclosed call block with no
delegation marker and no finish marker. -/
def c7Env : RunEnv :=
  { generate := fun _ => "BEGIN_TOOL_CALL mytool\nBEGIN_ARG x\n1"
    buildSystemPrompt := fun _ _ => "S"
    buildTaskMessage := fun t _ => t
    formatToolResults := fun _ => "R"
    continuePrompt := "C" }

/-- The two-agent mutual-delegation team of C4: edges A→B and B→A, entry
point A. -/
def c4Team : Team :=
  ⟨"t1", "Team", "d", ["A", "B"],
   [⟨"A", "B", Option.none⟩, ⟨"B", "A", Option.none⟩], "A"⟩

def c4Agents : List (String × Agent) :=
  [("A", ⟨"A", "Agent A", "A", [], "m", 1, 3⟩),
   ("B", ⟨"B", "Agent B", "B", [], "m", 1, 3⟩)]

/-- An oracle under which A always delegates to B and B always delegates
back to A, and neither ever marks finished (the system prompt is the
agent's own prompt, letting the oracle tell the two apart). -/
def envAB : RunEnv :=
  { generate := fun msgs =>
      match msgs with
      | m :: _ => if m.content = "A" then "[DELEGATE: B] go" else "[DELEGATE: A] go"
      | [] => ""
    buildSystemPrompt := fun a _ => a.system_prompt
    buildTaskMessage := fun t _ => t
    formatToolResults := fun _ => ""
    continuePrompt := "CONT" }

/-- An arbitrary concrete oracle. -/
def trivEnv : RunEnv :=
  { generate := fun _ => ""
    buildSystemPrompt := fun _ _ => ""
    buildTaskMessage := fun _ _ => ""
    formatToolResults := fun _ => ""
    continuePrompt := "" }

/-- A team whose entry point is not among its member ids. -/
def c6Team : Team := ⟨"t", "T", "", ["A"], [], "X"⟩

def c6Agents : List (String × Agent) := [("A", ⟨"A", "A", "", [], "m", 1, 3⟩)]

/-- A three-agent chain team for C10. -/
def c10Team : Team :=
  ⟨"t2", "Team2", "d", ["A", "B", "C"],
   [⟨"A", "B", Option.none⟩, ⟨"B", "C", Option.none⟩], "A"⟩

def c10Agents : List (String × Agent) :=
  [("A", ⟨"A", "Agent A", "A", [], "m", 1, 3⟩),
   ("B", ⟨"B", "Agent B", "B", [], "m", 1, 3⟩),
   ("C", ⟨"C", "Agent C", "C", [], "m", 1, 3⟩)]

-- lemmas about strip, splitLines and joinLines

theorem strip_cons_of_ws {c : Char} {l : Chars} (h : pyWS c = true) :
    strip (c :: l) = strip l := by
  simp [strip, List.dropWhile_cons, h]

theorem dropWhile_eq_self_of_head {l : Chars}
    (h : ∀ c ∈ l.head?, pyWS c = false) : l.dropWhile pyWS = l := by
  cases l with
  | nil => rfl
  | cons c t => simp_all [List.dropWhile_cons]

theorem strip_eq_self {l : Chars} (h1 : ∀ c ∈ l.head?, pyWS c = false)
    (h2 : ∀ c ∈ l.getLast?, pyWS c = false) : strip l = l := by
  have h1' := dropWhile_eq_self_of_head h1
  unfold strip List.rdropWhile
  rw [h1', dropWhile_eq_self_of_head (by rw [List.head?_reverse]; exact h2),
    List.reverse_reverse]

theorem strip_infix_self (l : Chars) : strip l <:+: l := by
  have h1 : l.dropWhile pyWS <:+ l := List.dropWhile_suffix pyWS
  have h2 : (l.dropWhile pyWS).rdropWhile pyWS <+: l.dropWhile pyWS :=
    List.rdropWhile_prefix pyWS _
  exact h2.isInfix.trans h1.isInfix

theorem head_not_ws_of_strip_eq {t : Chars} (h : strip t = t) :
    ∀ c ∈ t.head?, pyWS c = false := by
  intro c hc
  cases t with
  | nil => simp at hc
  | cons a t' =>
    have hca : a = c := by simpa using hc
    subst hca
    by_contra hws
    have hws' : pyWS a = true := by simpa using hws
    have hlen := congrArg List.length h
    rw [strip_cons_of_ws hws'] at hlen
    have hle : (strip t').length ≤ t'.length := (strip_infix_self t').length_le
    simp only [List.length_cons] at hlen
    omega

theorem dropWhile_eq_self_of_strip_eq {t : Chars} (h : strip t = t) :
    t.dropWhile pyWS = t := by
  have hsuf : t.dropWhile pyWS <:+ t := List.dropWhile_suffix pyWS
  apply hsuf.eq_of_length
  have h1 : (strip t).length ≤ (t.dropWhile pyWS).length :=
    (List.rdropWhile_prefix pyWS _).length_le
  have h2 : (t.dropWhile pyWS).length ≤ t.length := hsuf.length_le
  rw [h] at h1
  omega

theorem last_not_ws_of_strip_eq {t : Chars} (h : strip t = t) :
    ∀ c ∈ t.getLast?, pyWS c = false := by
  intro c hc
  have hne : t ≠ [] := by rintro rfl; simp at hc
  have hr : t.rdropWhile pyWS = t := by
    have h' := h
    unfold strip at h'
    rwa [dropWhile_eq_self_of_strip_eq h] at h'
  have hlast := (List.rdropWhile_eq_self_iff).1 hr hne
  have hgl : t.getLast hne = c := by
    rw [List.getLast?_eq_getLast t hne] at hc
    have := hc.symm
    simp only [Option.mem_def, Option.some.injEq] at hc
    exact hc
  rw [hgl] at hlast
  simpa using hlast

theorem strip_tag_line {tag t : Chars} (htagne : tag ≠ [])
    (htag : ∀ c ∈ tag.head?, pyWS c = false)
    (h1 : t ≠ []) (h2 : strip t = t) :
    strip (tag ++ ' ' :: t) = tag ++ ' ' :: t := by
  apply strip_eq_self
  · cases tag with
    | nil => exact absurd rfl htagne
    | cons a tg => simpa using htag
  · intro c hc
    rw [List.getLast?_append_of_ne_nil _ (by simp)] at hc
    have : (' ' :: t).getLast? = t.getLast? := by
      cases t with
      | nil => exact absurd rfl h1
      | cons b t' =>
        rw [show ' ' :: b :: t' = [' '] ++ b :: t' from rfl,
          List.getLast?_append_of_ne_nil _ (by simp)]
    rw [this] at hc
    exact last_not_ws_of_strip_eq h2 c hc

theorem splitLines_ne_nil (l : Chars) : splitLines l ≠ [] := by
  induction l with
  | nil => simp [splitLines]
  | cons c rest ih =>
    rw [splitLines]
    split
    · simp
    · match h : splitLines rest with
      | [] => exact absurd h ih
      | x :: xs => simp [h]

theorem splitLines_of_no_newline {l : Chars} (h : '\n' ∉ l) :
    splitLines l = [l] := by
  induction l with
  | nil => rfl
  | cons c rest ih =>
    have hc : ¬ c = '\n' := fun he => h (he ▸ List.mem_cons_self c rest)
    have hr : '\n' ∉ rest := fun hm => h (List.mem_cons_of_mem c hm)
    rw [splitLines, if_neg hc, ih hr]

theorem splitLines_append_newline {a r : Chars} (h : '\n' ∉ a) :
    splitLines (a ++ '\n' :: r) = a :: splitLines r := by
  induction a with
  | nil => simp [splitLines]
  | cons c a' ih =>
    have hc : ¬ c = '\n' := fun he => h (he ▸ List.mem_cons_self c a')
    have ha : '\n' ∉ a' := fun hm => h (List.mem_cons_of_mem c hm)
    rw [List.cons_append, splitLines, if_neg hc, ih ha]

theorem splitLines_joinLines : ∀ {ls : List Chars}, ls ≠ [] →
    (∀ l ∈ ls, '\n' ∉ l) → splitLines (joinLines ls) = ls
  | [], hne, _ => absurd rfl hne
  | [a], _, h => by
    rw [joinLines, splitLines_of_no_newline (h a (by simp))]
  | a :: b :: t, _, h => by
    rw [show joinLines (a :: b :: t) = a ++ '\n' :: joinLines (b :: t) from rfl,
      splitLines_append_newline (h a (by simp)),
      splitLines_joinLines (by simp) (fun l hl => h l (List.mem_cons_of_mem a hl))]

theorem no_newline_infix_split {m a b : Chars} (hm : '\n' ∉ m)
    (h : m <:+: a ++ '\n' :: b) : m <:+: a ∨ m <:+: b := by
  obtain ⟨s, e, hse⟩ := h
  rw [List.append_assoc] at hse
  rcases List.append_eq_append_iff.1 hse with ⟨a', ha1, ha2⟩ | ⟨c', hc1, hc2⟩
  · -- a = s ++ a' and m ++ e = a' ++ '\n' :: b
    rcases List.append_eq_append_iff.1 ha2 with ⟨x, hx1, hx2⟩ | ⟨y, hy1, hy2⟩
    · -- a' = m ++ x, so m is an infix of a
      left
      refine ⟨s, x, ?_⟩
      rw [ha1, hx1, List.append_assoc]
    · -- m = a' ++ y and '\n' :: b = y ++ e
      cases y with
      | nil =>
        left
        refine ⟨s, [], ?_⟩
        rw [List.append_nil] at hy1
        rw [List.append_nil, ha1, hy1]
      | cons y0 ys =>
        exfalso
        rw [List.cons_append] at hy2
        have hy0 : '\n' = y0 := (List.cons.injEq .. ▸ hy2).1
        exact hm (by
          rw [hy1, ← hy0]
          exact List.mem_append_right _ (by simp))
  · -- s = a ++ c' and '\n' :: b = c' ++ (m ++ e)
    cases c' with
    | nil =>
      simp only [List.nil_append] at hc2
      cases m with
      | nil => exact Or.inl List.nil_infix
      | cons m0 ms =>
        exfalso
        rw [List.cons_append] at hc2
        have hm0 : '\n' = m0 := (List.cons.injEq .. ▸ hc2).1
        exact hm (by rw [← hm0]; simp)
    | cons c0 cs =>
      right
      rw [List.cons_append] at hc2
      have hb : b = cs ++ (m ++ e) := (List.cons.injEq .. ▸ hc2).2
      exact ⟨cs, e, by rw [hb, List.append_assoc]⟩

theorem strip_etc : strip etcMarker = etcMarker := by decide

theorem strip_ea : strip eaMarker = eaMarker := by decide

theorem ba_line_ne_etc {n : Chars} : baMarker ++ ' ' :: n ≠ etcMarker := by
  intro he
  have := congrArg List.head? he
  simp [baMarker, etcMarker] at this

theorem ba_line_ne_ea {n : Chars} : baMarker ++ ' ' :: n ≠ eaMarker := by
  intro he
  have := congrArg List.head? he
  simp [baMarker, eaMarker] at this

theorem strip_ba_line {n : Chars} (h1 : n ≠ []) (h2 : strip n = n) :
    strip (baMarker ++ ' ' :: n) = baMarker ++ ' ' :: n :=
  strip_tag_line (by decide) (by decide) h1 h2

theorem strip_btc_line {t : Chars} (h1 : t ≠ []) (h2 : strip t = t) :
    strip (btcMarker ++ ' ' :: t) = btcMarker ++ ' ' :: t :=
  strip_tag_line (by decide) (by decide) h1 h2

theorem no_newline_infix_joinLines {m : Chars} (hmne : m ≠ [])
    (hm : '\n' ∉ m) : ∀ {ls : List Chars}, m <:+: joinLines ls →
    ∃ l ∈ ls, m <:+: l
  | [], h => by
    rw [joinLines] at h
    exact absurd (List.eq_nil_of_infix_nil h) hmne
  | [a], h => ⟨a, by simp, by rwa [joinLines] at h⟩
  | a :: b :: t, h => by
    rw [show joinLines (a :: b :: t) = a ++ '\n' :: joinLines (b :: t) from rfl] at h
    rcases no_newline_infix_split hm h with h1 | h2
    · exact ⟨a, by simp, h1⟩
    · obtain ⟨l, hl, hinf⟩ := no_newline_infix_joinLines hmne hm h2
      exact ⟨l, List.mem_cons_of_mem a hl, hinf⟩

-- behaviour of the call-body scanner on well-formed input

theorem scanBody_body_lines {body : List Chars} (hb : ∀ l ∈ body, WfBodyLine l) :
    ∀ (n : Chars) (acc : List Chars) (args : List (Chars × PyVal))
      (tail : List Chars),
    scanBody (some n) acc args (body ++ tail)
      = (scanBody (some n) (acc ++ body) args tail).map
          (fun r => (r.1, body ++ r.2.1, r.2.2)) := by
  induction body with
  | nil =>
    intro n acc args tail
    simp only [List.nil_append, List.append_nil]
    cases scanBody (some n) acc args tail with
    | none => rfl
    | some r => simp
  | cons l body' ih =>
    intro n acc args tail
    obtain ⟨-, h1, h2, h3⟩ := hb l (by simp)
    have hb' : ∀ x ∈ body', WfBodyLine x := fun x hx => hb x (List.mem_cons_of_mem l hx)
    have he1 : (strip l == etcMarker) = false := beq_eq_false_iff_ne.2 h1
    have he2 : (strip l == eaMarker) = false := beq_eq_false_iff_ne.2 h2
    have he3 : baMarker.isPrefixOf (strip l) = false :=
      Bool.eq_false_iff.2 fun hh => h3 (List.isPrefixOf_iff_prefix.1 hh)
    rw [List.cons_append, scanBody]
    simp only [he1, he2, he3, Bool.false_eq_true, if_false]
    rw [ih hb' n (acc ++ [l]) args tail, List.append_cons acc l body']
    cases scanBody (some n) ((acc ++ [l]) ++ body') args tail with
    | none => rfl
    | some r => simp

theorem scanBody_no_close {tail : List Chars}
    (h : ∀ l ∈ tail, strip l ≠ etcMarker) :
    ∀ curName curLines args, scanBody curName curLines args tail = Option.none := by
  induction tail with
  | nil => intro _ _ _; rfl
  | cons l rest ih =>
    intro cn cl a
    have hl : (strip l == etcMarker) = false :=
      beq_eq_false_iff_ne.2 (h l (by simp))
    have hrest : ∀ cn' cl' a', scanBody cn' cl' a' rest = Option.none :=
      fun cn' cl' a' => ih (fun x hx => h x (List.mem_cons_of_mem l hx)) cn' cl' a'
    cases cn with
    | none =>
      rw [scanBody]
      simp [hl, hrest]
    | some n =>
      rw [scanBody]
      simp [hl, hrest]

theorem scanBody_args {args : List (Chars × List Chars)}
    (hwf : ∀ a ∈ args, WfArg a) :
    ∀ (m : List (Chars × PyVal)) (tail : List Chars),
    scanBody Option.none [] m ((args.map renderArg).flatten ++ etcMarker :: tail)
      = some (buildArgsFrom m args,
              (args.map renderArg).flatten ++ [etcMarker], tail) := by
  induction args with
  | nil =>
    intro m tail
    simp only [List.map_nil, List.flatten_nil, List.nil_append]
    rw [scanBody]
    simp [strip_etc, buildArgsFrom]
  | cons a more ih =>
    intro m tail
    obtain ⟨hne, hstr, hnl, hbody⟩ := hwf a (by simp)
    have hmore : ∀ x ∈ more, WfArg x := fun x hx => hwf x (List.mem_cons_of_mem a hx)
    simp only [List.map_cons, List.flatten_cons]
    rw [show renderArg a = (baMarker ++ ' ' :: a.1) :: (a.2 ++ [eaMarker]) from rfl]
    simp only [List.cons_append, List.append_assoc]
    rw [scanBody]
    have hsl : strip (baMarker ++ ' ' :: a.1) = baMarker ++ ' ' :: a.1 :=
      strip_ba_line hne hstr
    have he1 : (strip (baMarker ++ ' ' :: a.1) == etcMarker) = false := by
      rw [hsl]; exact beq_eq_false_iff_ne.2 ba_line_ne_etc
    have he2 : (strip (baMarker ++ ' ' :: a.1) == eaMarker) = false := by
      rw [hsl]; exact beq_eq_false_iff_ne.2 ba_line_ne_ea
    have he3 : baMarker.isPrefixOf (strip (baMarker ++ ' ' :: a.1)) = true := by
      rw [hsl]; exact List.isPrefixOf_iff_prefix.2 (List.prefix_append _ _)
    simp only [he1, he2, he3, Bool.false_eq_true, if_false, if_true]
    have hdrop : (strip (baMarker ++ ' ' :: a.1)).drop baMarker.length = ' ' :: a.1 := by
      rw [hsl]; exact List.drop_left _ _
    rw [hdrop, strip_cons_of_ws (by decide), hstr]
    simp only [List.nil_append]
    rw [scanBody_body_lines hbody a.1 [] m _, List.nil_append]
    rw [scanBody]
    simp only [strip_ea, show (eaMarker == etcMarker) = false from by decide,
      Bool.false_eq_true, if_false, beq_self_eq_true, if_true]
    rw [ih hmore (dictInsert m a.1 (processArgValue a.2)) tail]
    simp [buildArgsFrom, List.append_assoc]

-- the scanner's remainder shrinks, and the fuel in `parseLines` suffices

theorem scanBody_rest_length {curName curLines args l a c r}
    (h : scanBody curName curLines args l = some (a, c, r)) :
    r.length < l.length := by
  induction l generalizing curName curLines args a c with
  | nil => simp [scanBody] at h
  | cons line rest ih =>
    simp only [scanBody] at h
    split at h
    · simp only [Option.some.injEq, Prod.mk.injEq] at h
      obtain ⟨-, -, hr⟩ := h
      subst hr
      simp
    · simp only [Option.map_eq_some'] at h
      obtain ⟨⟨a', c', r'⟩, hstep, heq⟩ := h
      simp only [Prod.mk.injEq] at heq
      obtain ⟨-, -, hr⟩ := heq
      subst hr
      have hlt : r'.length < rest.length := by
        split at hstep
        · split at hstep
          · exact ih hstep
          · exact ih hstep
        · split at hstep
          · exact ih hstep
          · split at hstep
            · exact ih hstep
            · exact ih hstep
      simp only [List.length_cons]
      omega

theorem parseLinesF_eq : ∀ (fuel : Nat) (l : List Chars), l.length ≤ fuel →
    parseLinesF fuel l = parseLines l := by
  intro fuel
  induction fuel using Nat.strong_induction_on with
  | _ fuel ih =>
    intro l hl
    cases fuel with
    | zero =>
      cases l with
      | nil => rfl
      | cons a b => simp at hl
    | succ f =>
      cases l with
      | nil => rfl
      | cons line rest =>
        have hrest : rest.length ≤ f := by simpa using hl
        have h1 : parseLinesF f rest = parseLines rest :=
          ih f (Nat.lt_succ_self f) rest hrest
        have h2 : parseLinesF rest.length rest = parseLines rest :=
          ih rest.length (Nat.lt_succ_of_le hrest) rest (Nat.le_refl _)
        rw [parseLines]
        simp only [List.length_cons, parseLinesF]
        by_cases hpre : btcMarker.isPrefixOf (strip line) = true
        · by_cases hname : (strip ((strip line).drop btcMarker.length)).isEmpty = true
          · simp only [hpre, hname, if_true, h1, h2]
          · simp only [hpre, hname, if_true, Bool.false_eq_true, if_false]
            cases hscan : scanBody Option.none [] [] rest with
            | none => simp [hscan]
            | some triple =>
              obtain ⟨args, consumed, rest'⟩ := triple
              have hlt := scanBody_rest_length hscan
              have h3 : parseLinesF f rest' = parseLines rest' :=
                ih f (Nat.lt_succ_self f) rest'
                  (Nat.le_trans (Nat.le_of_lt hlt) hrest)
              have h4 : parseLinesF rest.length rest' = parseLines rest' :=
                ih rest.length (Nat.lt_succ_of_le hrest) rest' (Nat.le_of_lt hlt)
              simp [hscan, h3, h4]
        · simp only [hpre, Bool.false_eq_true, if_false, h1, h2]

-- unfolding equations for the line scanner

theorem parseLines_nil : parseLines [] = ([], []) := rfl

theorem parseLines_cons_text {line : Chars} {rest : List Chars}
    (h : ¬ btcMarker <+: strip line) :
    parseLines (line :: rest)
      = (line :: (parseLines rest).1, (parseLines rest).2) := by
  have hb : btcMarker.isPrefixOf (strip line) = false :=
    Bool.eq_false_iff.2 fun hh => h (List.isPrefixOf_iff_prefix.1 hh)
  simp only [parseLines, List.length_cons, parseLinesF, hb, Bool.false_eq_true,
    if_false]

theorem parseLines_open_found {line : Chars} {rest : List Chars}
    {args : List (Chars × PyVal)} {consumed rest' : List Chars}
    (hpre : btcMarker <+: strip line)
    (hname : strip ((strip line).drop btcMarker.length) ≠ [])
    (hscan : scanBody Option.none [] [] rest = some (args, consumed, rest')) :
    parseLines (line :: rest)
      = ((parseLines rest').1,
         ⟨strip ((strip line).drop btcMarker.length), args,
          joinLines (line :: consumed)⟩ :: (parseLines rest').2) := by
  have h1 : btcMarker.isPrefixOf (strip line) = true :=
    List.isPrefixOf_iff_prefix.2 hpre
  have h2 : (strip ((strip line).drop btcMarker.length)).isEmpty = false :=
    Bool.eq_false_iff.2 fun hh => hname (List.isEmpty_iff.1 hh)
  have h4 := parseLinesF_eq rest.length rest'
    (Nat.le_of_lt (scanBody_rest_length hscan))
  simp only [parseLines, List.length_cons, parseLinesF, h1, if_true, h2,
    Bool.false_eq_true, if_false, hscan, h4]

theorem parseLines_open_unclosed {line : Chars} {rest : List Chars}
    (hpre : btcMarker <+: strip line)
    (hname : strip ((strip line).drop btcMarker.length) ≠ [])
    (hscan : scanBody Option.none [] [] rest = Option.none) :
    parseLines (line :: rest) = (line :: rest, []) := by
  have h1 : btcMarker.isPrefixOf (strip line) = true :=
    List.isPrefixOf_iff_prefix.2 hpre
  have h2 : (strip ((strip line).drop btcMarker.length)).isEmpty = false :=
    Bool.eq_false_iff.2 fun hh => hname (List.isEmpty_iff.1 hh)
  simp only [parseLines, List.length_cons, parseLinesF, h1, if_true, h2,
    Bool.false_eq_true, if_false, hscan]

-- the scanner on a rendered well-formed response followed by arbitrary lines

theorem renderLines_no_newline {segs : List Segment}
    (h : ∀ s ∈ segs, WfSegment s) : ∀ l ∈ renderLines segs, '\n' ∉ l := by
  intro l hl
  rw [renderLines] at hl
  simp only [List.mem_flatten, List.mem_map] at hl
  obtain ⟨x, ⟨s, hs, rfl⟩, hlx⟩ := hl
  have hws := h s hs
  cases s with
  | text t =>
    simp only [renderSegment, List.mem_singleton] at hlx
    subst hlx
    exact hws.1
  | call b =>
    obtain ⟨hne, hstr, hnl, hnd, hargs⟩ := hws
    simp only [renderSegment, renderCall] at hlx
    rcases List.mem_cons.1 hlx with rfl | hlx'
    · intro hmem
      rcases List.mem_append.1 hmem with h1 | h2
      · revert h1; decide
      · rcases List.mem_cons.1 h2 with h3 | h4
        · exact absurd h3 (by decide)
        · exact hnl h4
    · rcases List.mem_append.1 hlx' with hfl | hetc
      · simp only [List.mem_flatten, List.mem_map] at hfl
        obtain ⟨y, ⟨a, ha, rfl⟩, hly⟩ := hfl
        obtain ⟨hane, hastr, hanl, habody⟩ := hargs a ha
        simp only [renderArg] at hly
        rcases List.mem_cons.1 hly with rfl | hly'
        · intro hmem
          rcases List.mem_append.1 hmem with h1 | h2
          · revert h1; decide
          · rcases List.mem_cons.1 h2 with h3 | h4
            · exact absurd h3 (by decide)
            · exact hanl h4
        · rcases List.mem_append.1 hly' with hb | hea
          · exact (habody _ hb).1
          · rw [List.mem_singleton] at hea
            subst hea
            decide
      · rw [List.mem_singleton] at hetc
        subst hetc
        decide

theorem renderLines_ne_nil {segs : List Segment} (hne : segs ≠ []) :
    renderLines segs ≠ [] := by
  cases segs with
  | nil => exact absurd rfl hne
  | cons s more =>
    rw [renderLines]
    simp only [List.map_cons, List.flatten_cons]
    cases s with
    | text t => simp [renderSegment]
    | call b => simp [renderSegment, renderCall]

theorem parseLines_render_append {segs : List Segment}
    (h : ∀ s ∈ segs, WfSegment s) (extra : List Chars) :
    parseLines (renderLines segs ++ extra)
      = (textLines segs ++ (parseLines extra).1,
         (callBlocks segs).map expectedCall ++ (parseLines extra).2) := by
  induction segs with
  | nil => simp [renderLines, textLines, callBlocks]
  | cons s more ih =>
    have hmore : ∀ x ∈ more, WfSegment x := fun x hx => h x (List.mem_cons_of_mem s hx)
    cases s with
    | text l =>
      obtain ⟨hnl, hmk⟩ := h (.text l) (by simp)
      have hpre : ¬ btcMarker <+: strip l := fun hp =>
        hmk btcMarker (by simp [markers]) (hp.isInfix.trans (strip_infix_self l))
      rw [show renderLines (.text l :: more) = l :: renderLines more from by
            simp [renderLines, renderSegment],
          List.cons_append, parseLines_cons_text hpre, ih hmore]
      simp [textLines, callBlocks]
    | call b =>
      obtain ⟨hne, hstr, hnl, hnd, hargs⟩ := h (.call b) (by simp)
      have hscan := scanBody_args hargs [] (renderLines more ++ extra)
      rw [show renderLines (.call b :: more) = renderCall b ++ renderLines more from by
            simp [renderLines, renderSegment]]
      rw [show renderCall b = (btcMarker ++ ' ' :: b.tool) ::
            ((b.args.map renderArg).flatten ++ [etcMarker]) from rfl]
      simp only [List.cons_append, List.append_assoc, List.singleton_append,
        List.nil_append]
      have hstrip := strip_btc_line hne hstr
      have hpre : btcMarker <+: strip (btcMarker ++ ' ' :: b.tool) := by
        rw [hstrip]; exact List.prefix_append _ _
      have hdrop : strip ((strip (btcMarker ++ ' ' :: b.tool)).drop btcMarker.length)
          = b.tool := by
        rw [hstrip, List.drop_left, strip_cons_of_ws (by decide), hstr]
      have hnamene : strip ((strip (btcMarker ++ ' ' :: b.tool)).drop btcMarker.length)
          ≠ [] := by rw [hdrop]; exact hne
      rw [parseLines_open_found hpre hnamene hscan, ih hmore]
      simp [textLines, callBlocks, expectedCall, hdrop, renderCall]

-- key counting in the built argument mapping

theorem dictInsert_of_not_mem {α β : Type} [BEq α] [LawfulBEq α]
    {m : List (α × β)} {k : α} {v : β}
    (h : k ∉ m.map Prod.fst) : dictInsert m k v = m ++ [(k, v)] := by
  induction m with
  | nil => rfl
  | cons p rest ih =>
    obtain ⟨k', v'⟩ := p
    rw [dictInsert]
    have hk : (k' == k) = false := beq_eq_false_iff_ne.2 fun he =>
      h (by rw [List.map_cons, he]; exact List.mem_cons_self _ _)
    rw [hk]
    simp only [Bool.false_eq_true, if_false, List.cons_append, List.cons.injEq,
      true_and]
    exact ih fun hm => h (by rw [List.map_cons]; exact List.mem_cons_of_mem _ hm)

theorem buildArgsFrom_keys {args : List (Chars × List Chars)} :
    ∀ {m : List (Chars × PyVal)}, (args.map Prod.fst).Nodup →
    (∀ a ∈ args, a.1 ∉ m.map Prod.fst) →
    (buildArgsFrom m args).map Prod.fst = m.map Prod.fst ++ args.map Prod.fst := by
  induction args with
  | nil => intro m _ _; simp [buildArgsFrom]
  | cons a more ih =>
    intro m hnd hfresh
    rw [List.map_cons] at hnd
    obtain ⟨hhead, hndmore⟩ := List.nodup_cons.1 hnd
    have hstep : buildArgsFrom m (a :: more)
        = buildArgsFrom (dictInsert m a.1 (processArgValue a.2)) more := by
      simp [buildArgsFrom]
    rw [hstep, dictInsert_of_not_mem (hfresh a (by simp))]
    rw [ih hndmore ?fresh]
    · simp
    case fresh =>
      intro x hx hmem
      simp only [List.map_append, List.mem_append, List.map_cons, List.map_nil,
        List.mem_singleton] at hmem
      rcases hmem with h1 | h2
      · exact hfresh x (List.mem_cons_of_mem a hx) h1
      · exact hhead (h2 ▸ List.mem_map_of_mem Prod.fst hx)

theorem buildArgs_length {args : List (Chars × List Chars)}
    (hnd : (args.map Prod.fst).Nodup) :
    (buildArgsFrom [] args).length = args.length := by
  have h := @buildArgsFrom_keys _ [] hnd
    (fun a _ hmem => absurd hmem (by rw [List.map_nil]; exact List.not_mem_nil _))
  rw [List.map_nil, List.nil_append] at h
  have h2 := congrArg List.length h
  rwa [List.length_map, List.length_map] at h2

-- top-level behaviour of `parse_response` on a rendered response

theorem parse_response_render {segs : List Segment} (hne : segs ≠ [])
    (h : ∀ s ∈ segs, WfSegment s) :
    parse_response (renderResponse segs)
      = (String.mk (strip (joinLines (textLines segs))),
         (callBlocks segs).map expectedCall) := by
  have hp := parseLines_render_append h []
  simp only [parseLines_nil, List.append_nil] at hp
  simp only [parse_response, renderResponse]
  rw [show (String.mk (joinLines (renderLines segs))).toList
      = joinLines (renderLines segs) from rfl]
  rw [splitLines_joinLines (renderLines_ne_nil hne) (renderLines_no_newline h), hp]

theorem mem_textLines_wf {segs : List Segment} (h : ∀ s ∈ segs, WfSegment s)
    {l : Chars} (hl : l ∈ textLines segs) : WfText l := by
  rw [textLines] at hl
  rcases List.mem_filterMap.1 hl with ⟨s, hs, hmatch⟩
  cases s with
  | text t =>
    have := h _ hs
    simp only [Option.some.injEq] at hmatch
    exact hmatch ▸ this
  | call b => cases hmatch

theorem mem_callBlocks_wf {segs : List Segment} (h : ∀ s ∈ segs, WfSegment s)
    {b : CallBlock} (hb : b ∈ callBlocks segs) : WfCall b := by
  rw [callBlocks] at hb
  rcases List.mem_filterMap.1 hb with ⟨s, hs, hmatch⟩
  cases s with
  | text t => cases hmatch
  | call b' =>
    have := h _ hs
    simp only [Option.some.injEq] at hmatch
    exact hmatch ▸ this

theorem cleaned_no_marker {segs : List Segment} (h : ∀ s ∈ segs, WfSegment s) :
    ∀ m ∈ markers, ¬ m <:+: strip (joinLines (textLines segs)) := by
  intro m hm hinf
  have hmne : m ≠ [] := by
    simp only [markers, List.mem_cons, List.mem_singleton, List.not_mem_nil,
      or_false] at hm
    rcases hm with rfl | rfl | rfl | rfl <;> decide
  have hmnl : '\n' ∉ m := by
    simp only [markers, List.mem_cons, List.mem_singleton, List.not_mem_nil,
      or_false] at hm
    rcases hm with rfl | rfl | rfl | rfl <;> decide
  have h2 : m <:+: joinLines (textLines segs) :=
    hinf.trans (strip_infix_self _)
  obtain ⟨l, hl, hlm⟩ := no_newline_infix_joinLines hmne hmnl h2
  exact (mem_textLines_wf h hl).2 m hm hlm

/-- C1: for every well-formed response — marker-free plain text lines
interleaved with well-formed call blocks (`BEGIN_TOOL_CALL` naming a tool,
each argument opened by `BEGIN_ARG` and closed by `END_ARG`, the call
closed by `END_TOOL_CALL`, argument names pairwise distinct) —
`parse_response` emits exactly one call per block, each call's argument
mapping has exactly as many keys as its block has argument blocks, and the
returned `cleaned_text` is the original text with all parsed call spans
removed and line-trimmed, containing none of the call markers. -/
theorem parse_response_wellformed_blocks (segs : List Segment) (hne : segs ≠ [])
    (h : ∀ s ∈ segs, WfSegment s) :
    (parse_response (renderResponse segs)).2 = (callBlocks segs).map expectedCall ∧
    (parse_response (renderResponse segs)).2.map (fun c => c.arguments.length)
      = (callBlocks segs).map (fun b => b.args.length) ∧
    (parse_response (renderResponse segs)).1
      = String.mk (strip (joinLines (textLines segs))) ∧
    ∀ m ∈ markers, ¬ m <:+: (parse_response (renderResponse segs)).1.toList := by
  have hp := parse_response_render hne h
  have hcalls : (parse_response (renderResponse segs)).2
      = (callBlocks segs).map expectedCall := by rw [hp]
  have hclean : (parse_response (renderResponse segs)).1
      = String.mk (strip (joinLines (textLines segs))) := by rw [hp]
  refine ⟨hcalls, ?_, hclean, ?_⟩
  · rw [hcalls, List.map_map]
    apply List.map_congr_left
    intro b hb
    have hw := mem_callBlocks_wf h hb
    simp only [Function.comp_apply, expectedCall]
    exact buildArgs_length hw.2.2.2.1
  · intro m hm
    rw [hclean]
    rw [show (String.mk (strip (joinLines (textLines segs)))).toList
        = strip (joinLines (textLines segs)) from rfl]
    exact cleaned_no_marker h m hm

/-- A concrete well-formed response: a text line, a two-argument
`write_file` call block, a trailing text line. -/
def c1Segs : List Segment :=
  [Segment.text ("Intro line".toList),
   Segment.call ⟨"write_file".toList,
     [("file_path".toList, ["out.txt".toList]),
      ("content".toList, ["hello".toList, "world".toList])]⟩,
   Segment.text ("after text".toList)]

/-- Witness for C1 at a concrete response with a two-argument call block. -/
theorem parse_response_wellformed_blocks_witness :
    c1Segs ≠ [] ∧ (∀ s ∈ c1Segs, WfSegment s) ∧
    ((parse_response (renderResponse c1Segs)).2
        = (callBlocks c1Segs).map expectedCall ∧
     (parse_response (renderResponse c1Segs)).2.map (fun c => c.arguments.length)
        = (callBlocks c1Segs).map (fun b => b.args.length) ∧
     (parse_response (renderResponse c1Segs)).1
        = String.mk (strip (joinLines (textLines c1Segs))) ∧
     ∀ m ∈ markers, ¬ m <:+: (parse_response (renderResponse c1Segs)).1.toList) :=
  ⟨by decide, by decide,
   parse_response_wellformed_blocks c1Segs (by decide) (by decide)⟩

/-- A response that ends with a call block whose `END_TOOL_CALL` never
appears: the parser emits no call for that block, the block's lines stay in
the cleaned text, and any earlier well-formed blocks still parse. -/
theorem parse_response_unclosed {segs : List Segment}
    (h : ∀ s ∈ segs, WfSegment s) {t : Chars} (htne : t ≠ [])
    (hts : strip t = t) (htnl : '\n' ∉ t) {tail : List Chars}
    (htail : ∀ l ∈ tail, '\n' ∉ l ∧ strip l ≠ etcMarker) :
    parse_response (String.mk (joinLines
        (renderLines segs ++ (btcMarker ++ ' ' :: t) :: tail)))
      = (String.mk (strip (joinLines
            (textLines segs ++ (btcMarker ++ ' ' :: t) :: tail))),
         (callBlocks segs).map expectedCall) := by
  have hbtc_nl : '\n' ∉ btcMarker ++ ' ' :: t := by
    intro hmem
    rcases List.mem_append.1 hmem with h1 | h2
    · revert h1; decide
    · rcases List.mem_cons.1 h2 with h3 | h4
      · exact absurd h3 (by decide)
      · exact htnl h4
  have hnl : ∀ l ∈ renderLines segs ++ (btcMarker ++ ' ' :: t) :: tail,
      '\n' ∉ l := by
    intro l hl
    rcases List.mem_append.1 hl with h1 | h2
    · exact renderLines_no_newline h l h1
    · rcases List.mem_cons.1 h2 with rfl | h3
      · exact hbtc_nl
      · exact (htail l h3).1
  have hne' : renderLines segs ++ (btcMarker ++ ' ' :: t) :: tail ≠ [] := by simp
  have hscan : scanBody Option.none [] [] tail = Option.none :=
    scanBody_no_close (fun l hl => (htail l hl).2) _ _ _
  have hstrip := strip_btc_line htne hts
  have hpre : btcMarker <+: strip (btcMarker ++ ' ' :: t) := by
    rw [hstrip]; exact List.prefix_append _ _
  have hdrop : strip ((strip (btcMarker ++ ' ' :: t)).drop btcMarker.length)
      = t := by
    rw [hstrip, List.drop_left, strip_cons_of_ws (by decide), hts]
  have hname : strip ((strip (btcMarker ++ ' ' :: t)).drop btcMarker.length)
      ≠ [] := by rw [hdrop]; exact htne
  have hunc := parseLines_open_unclosed hpre hname hscan
  have hp := parseLines_render_append h ((btcMarker ++ ' ' :: t) :: tail)
  rw [hunc] at hp
  simp only [parse_response]
  rw [show (String.mk (joinLines
        (renderLines segs ++ (btcMarker ++ ' ' :: t) :: tail))).toList
      = joinLines (renderLines segs ++ (btcMarker ++ ' ' :: t) :: tail) from rfl]
  rw [splitLines_joinLines hne' hnl, hp]
  simp

-- ------------------------------------------------------------------
-- C2: the executor never propagates exceptions
-- ------------------------------------------------------------------

/-- C2: `execute_tool` is a total function into structured results — an
exception never propagates — and whenever evaluation of the tool's code
raises, or the bound function raises during invocation, the result has
`success = false`, a null `result`, and an error string holding the failure
kind and message plus the diagnostic trace; otherwise it reports success
with a value and a null error. -/
theorem execute_tool_structured (tool : ToolModel)
    (arguments : List (String × PyVal)) (k m tb : String) :
    ((∃ v, execute_tool tool arguments = ⟨true, some v, Option.none⟩) ∨
     (∃ k' m' tb', execute_tool tool arguments
        = ⟨false, Option.none, some (k' ++ ": " ++ m' ++ "\n" ++ tb')⟩)) ∧
    (tool.execOutcome = .exn k m tb →
      execute_tool tool arguments
        = ⟨false, Option.none, some (k ++ ": " ++ m ++ "\n" ++ tb)⟩) ∧
    (∀ defined, tool.execOutcome = .ok defined →
      tool.name ∈ arguments.map Prod.fst ++ defined →
      tool.call (kwArgs tool arguments) = .exn k m tb →
      execute_tool tool arguments
        = ⟨false, Option.none, some (k ++ ": " ++ m ++ "\n" ++ tb)⟩) := by
  refine ⟨?_, ?_, ?_⟩
  · cases he : tool.execOutcome with
    | exn k' m' tb' =>
      exact Or.inr ⟨k', m', tb', by simp [execute_tool, he, execFailure]⟩
    | ok defined =>
      by_cases hmem : tool.name ∈ arguments.map Prod.fst ++ defined
      · cases hc : tool.call (kwArgs tool arguments) with
        | ok v => exact Or.inl ⟨v, by simp [execute_tool, he, hmem, hc]⟩
        | exn k' m' tb' =>
          exact Or.inr ⟨k', m', tb',
            by simp [execute_tool, he, hmem, hc, execFailure]⟩
      · exact Or.inr ⟨"ValueError",
          "Tool code must define a function named '" ++ tool.name ++ "'",
          tool.nameErrorTb, by simp [execute_tool, he, hmem, execFailure]⟩
  · intro h
    simp [execute_tool, h, execFailure]
  · intro defined h1 h2 h3
    simp [execute_tool, h1, h2, h3, execFailure]

/-- Witness for C2: a tool whose bound function raises is reported as a
structured failure carrying the exception kind, message and traceback. -/
theorem execute_tool_structured_witness :
    execute_tool c2Tool [("x", PyVal.int 1)]
      = ⟨false, Option.none,
         some ("ValueError" ++ ": " ++ "bad" ++ "\n" ++ "tb1")⟩ :=
  (execute_tool_structured c2Tool [("x", PyVal.int 1)] "ValueError" "bad"
    "tb1").2.2 ["boom"] rfl (by decide) rfl

-- ------------------------------------------------------------------
-- C9: filesystem read / write / exists
-- ------------------------------------------------------------------

theorem lookup_dictInsert {α β : Type} [BEq α] [LawfulBEq α]
    (m : List (α × β)) (k : α) (v : β) :
    (dictInsert m k v).lookup k = some v := by
  induction m with
  | nil => simp [dictInsert]
  | cons p rest ih =>
    obtain ⟨k', v'⟩ := p
    rw [dictInsert]
    by_cases h : (k' == k) = true
    · simp [h]
    · have h2 : (k == k') = false := by
        rw [beq_eq_false_iff_ne]
        intro he
        exact h (by simp [he])
      simp [h, h2, List.lookup, ih]

/-- C9 counterexample: after writing `"x"` to `out.txt`, `read_file` does
not return exactly the stored content — it returns a success message that
embeds the content. -/
theorem read_file_returns_message_not_content :
    write_file ⟨[]⟩ "out.txt" "x" "w"
      = .ok (⟨[("out.txt", "x")]⟩,
             "Successfully overwrote out.txt. Wrote 1 characters.") ∧
    read_file ⟨[("out.txt", "x")]⟩ "out.txt"
      = .ok "Successfully read 1 characters from out.txt\n\nContent:\nx" ∧
    read_file ⟨[("out.txt", "x")]⟩ "out.txt" ≠ .ok "x" := by
  refine ⟨?_, ?_, ?_⟩ <;> decide

/-- C9 (amended): overwrite-write stores the content and makes the path
exist, and a subsequent read returns the success message embedding exactly
the stored content; a path with no stored entry reads as
`FileNotFoundError`; append-write to an existing path stores the old
content followed by the new. -/
theorem fs_write_read (fs : FileSystem) (p c : String) :
    (∀ fs' msg, write_file fs p c "w" = .ok (fs', msg) →
      existsFile fs' p = true ∧
      read_file fs' p = .ok ("Successfully read " ++ toString c.length
        ++ " characters from " ++ normPath p ++ "\n\nContent:\n" ++ c)) ∧
    ((fs.files.lookup (normPath p)).isNone →
      read_file fs p = .error ("File not found: " ++ normPath p)) ∧
    (∀ old, fs.files.lookup (normPath p) = some old →
      ∀ fs' msg, write_file fs p c "a" = .ok (fs', msg) →
        read_file fs' p = .ok ("Successfully read "
          ++ toString (old ++ c).length ++ " characters from " ++ normPath p
          ++ "\n\nContent:\n" ++ (old ++ c))) := by
  refine ⟨?_, ?_, ?_⟩
  · intro fs' msg h
    simp only [write_file, show ("w" == "w") = true from rfl,
      show ("w" == "a") = false from rfl, Bool.not_true, Bool.not_false,
      Bool.false_and, Bool.and_false, Bool.false_eq_true, if_false,
      eq_self_iff_true, if_true, Except.ok.injEq, Prod.mk.injEq] at h
    obtain ⟨hfs, -⟩ := h
    subst hfs
    constructor
    · simp [existsFile, lookup_dictInsert]
    · simp [read_file, lookup_dictInsert]
  · intro h
    rw [Option.isNone_iff_eq_none] at h
    simp [read_file, h]
  · intro old hold fs' msg h
    simp only [write_file, show ("a" == "w") = false from rfl,
      show ("a" == "a") = true from rfl, Bool.not_true, Bool.not_false,
      Bool.true_and, Bool.and_false, Bool.false_eq_true, if_false, hold,
      Except.ok.injEq, Prod.mk.injEq] at h
    obtain ⟨hfs, -⟩ := h
    subst hfs
    simp [read_file, lookup_dictInsert]

/-- Witness for C9 at a concrete filesystem: write then read and the
not-found and append cases. -/
theorem fs_write_read_witness :
    (existsFile (⟨[("out.txt", "x")]⟩ : FileSystem) "out.txt" = true ∧
      read_file (⟨[("out.txt", "x")]⟩ : FileSystem) "out.txt"
        = .ok ("Successfully read " ++ toString ("x" : String).length
          ++ " characters from " ++ normPath "out.txt" ++ "\n\nContent:\n" ++ "x")) ∧
    read_file (⟨[]⟩ : FileSystem) "other.txt"
      = .error ("File not found: " ++ normPath "other.txt") :=
  ⟨(fs_write_read ⟨[]⟩ "out.txt" "x").1 ⟨[("out.txt", "x")]⟩
      "Successfully overwrote out.txt. Wrote 1 characters." (by decide),
   (fs_write_read ⟨[]⟩ "other.txt" "x").2.1 (by decide)⟩

-- ------------------------------------------------------------------
-- C5: judge response parsing
-- ------------------------------------------------------------------

/-- C5 (amended): the one-shot judge extracts the score by attempting the
patterns in order and taking the first match; when none matches judging
fails with a parse error rather than substituting a default; an extracted
score outside [0,10] is a fatal parse error, not clamped; and the stated
examples behave exactly as claimed.  (The older `TeamEvaluator` parser
substitutes a default instead — see the counterexample.) -/
theorem parse_evaluation_spec (r : String) :
    parse_evaluation "Score: 7.5/10\nReasoning: Partially complete."
      = .ok (mkRat 15 2, "Partially complete.") ∧
    parse_evaluation "12/10" = .error (.outOfRange 12) ∧
    (extractScore r.toList = Option.none →
      parse_evaluation r = .error (.noScore (r.toList.take 200))) ∧
    (∀ num, extractScore r.toList = some num →
      ¬ (0 ≤ decimalOfDigits num ∧ decimalOfDigits num ≤ 10) →
      parse_evaluation r = .error (.outOfRange (decimalOfDigits num))) := by
  refine ⟨by decide, by decide, ?_, ?_⟩
  · intro h
    simp only [parse_evaluation, h]
  · intro num h1 h2
    simp only [parse_evaluation, h1, if_pos h2]

/-- C5 counterexample: `TeamEvaluator._parse_judge_response` — one of the
two judge-response parsers the claim covers — substitutes the default
score `5.0` when no pattern matches, and accepts the out-of-range response
`"12/10"` with score `12` instead of failing validation. -/
theorem parse_judge_response_defaults :
    parse_judge_response "no score here" = (5, "no score here") ∧
    parse_judge_response "12/10" = (12, "12/10") := by
  constructor <;> decide

/-- Witness for C5 at a response matching no score pattern. -/
theorem parse_evaluation_spec_witness :
    extractScore ("nothing at all" : String).toList = Option.none ∧
    parse_evaluation "nothing at all"
      = .error (.noScore (("nothing at all" : String).toList.take 200)) :=
  ⟨by decide, (parse_evaluation_spec "nothing at all").2.2.1 (by decide)⟩

-- ------------------------------------------------------------------
-- C3: the retry bound after tool failures
-- ------------------------------------------------------------------

/-- C3 counterexample: the gate the loop evaluates after tool execution,
`toolRetryGate`, tests the total iteration counter, not a consecutive-
failure count resetting on success.  A first failure at iteration 1 and a
first failure at iteration 4 (after three successes) both amount to one
consecutive failure — within the claimed bound `max_retries = 2` under the
spec's accounting — yet the code's gate differs between them, because the
quantity it compares is the iteration counter. -/
theorem toolRetryGate_counts_total_iterations :
    specConsecutiveFailures [false] = 1 ∧
    specConsecutiveFailures [true, true, true, false] = 1 ∧
    specRetryWithinBound [false] 2 = true ∧
    specRetryWithinBound [true, true, true, false] 2 = true ∧
    toolRetryGate false 1 2 = true ∧
    toolRetryGate false 4 2 = false := by decide

/-- C3 (amended): after any iteration whose response contains tool calls,
the loop always continues to the next iteration without checking
delegation or completion that round — the recorded entry has
`finished = false` and no delegation — regardless of the tool outcomes:
both branches of the `max_retries` comparison (which tests the total
iteration counter) proceed identically. -/
theorem runLoop_tool_iteration_continues
    (env : RunEnv) (agent : Agent) (tools : List ToolModel)
    (fuel : Nat) (st : LoopState)
    (h : (parse_response (env.generate st.messages)).2 ≠ []) :
    runLoop env agent tools (fuel + 1) st
      = runLoop env agent tools fuel
          ⟨st.messages ++
              [⟨"assistant", env.generate st.messages⟩,
               ⟨"user", env.formatToolResults
                  ((parse_response (env.generate st.messages)).2.map
                    (execOneCall tools))⟩],
            st.history ++
              [⟨st.iteration + 1, env.generate st.messages,
                (parse_response (env.generate st.messages)).2, Option.none,
                false⟩],
            st.iteration + 1, st.delegation, st.finished⟩ := by
  rw [runLoop]
  have he : (parse_response (env.generate st.messages)).2.isEmpty = false :=
    Bool.eq_false_iff.2 fun hh => h (List.isEmpty_iff.1 hh)
  simp only [he, Bool.false_eq_true, if_false]
  split <;> rfl

/-- Witness for C3 at a one-iteration run whose single tool call fails
(unknown tool) with `max_retries = 0`: the loop still continues. -/
theorem runLoop_tool_iteration_continues_witness :
    (parse_response (c3Env.generate c3State.messages)).2 ≠ [] ∧
    runLoop c3Env c3Agent [] 1 c3State
      = runLoop c3Env c3Agent [] 0
          ⟨c3State.messages ++
              [⟨"assistant", c3Env.generate c3State.messages⟩,
               ⟨"user", c3Env.formatToolResults
                  ((parse_response (c3Env.generate c3State.messages)).2.map
                    (execOneCall []))⟩],
            c3State.history ++
              [⟨c3State.iteration + 1, c3Env.generate c3State.messages,
                (parse_response (c3Env.generate c3State.messages)).2,
                Option.none, false⟩],
            c3State.iteration + 1, c3State.delegation, c3State.finished⟩ :=
  ⟨by decide,
   runLoop_tool_iteration_continues c3Env c3Agent [] 0 c3State (by decide)⟩

-- ------------------------------------------------------------------
-- C8: the final response field of a finished turn
-- ------------------------------------------------------------------

/-- C8: at an input whose first completion carries the finish marker, the
turn ends on that iteration, but the returned `final_response` is
`messages[-2]` — the task user message — not the assistant response of the
last recorded iteration as the specification states. -/
theorem run_agent_final_response_is_user_message :
    (run_agent c8Env c8Agent "write it" [] [] [] 10).finished = true ∧
    (run_agent c8Env c8Agent "write it" [] [] [] 10).iterations = 1 ∧
    (run_agent c8Env c8Agent "write it" [] [] [] 10).history
      = [⟨1, "done <FINISHED>", [], Option.none, true⟩] ∧
    (run_agent c8Env c8Agent "write it" [] [] [] 10).final_response
      = "TASK write it" ∧
    (run_agent c8Env c8Agent "write it" [] [] [] 10).final_response
      ≠ "done <FINISHED>" := by
  refine ⟨?_, ?_, ?_, ?_, ?_⟩ <;> decide

-- ------------------------------------------------------------------
-- C7: unclosed call blocks are dropped and the loop continues
-- ------------------------------------------------------------------

/-- C7: a call block whose closing `END_TOOL_CALL` never appears yields no
parsed tool call (here the rest of the response has no call blocks, so the
response parses to zero calls), and the turn loop, seeing no tool calls,
no delegation and no completion marker, appends the continue-or-finish
prompt as a user message and keeps iterating rather than crashing. -/
theorem unclosed_call_dropped_and_loop_continues
    {segs : List Segment} (hsegs : ∀ s ∈ segs, WfSegment s)
    (hnocalls : callBlocks segs = [])
    {t : Chars} (htne : t ≠ []) (hts : strip t = t) (htnl : '\n' ∉ t)
    {tail : List Chars} (htail : ∀ l ∈ tail, '\n' ∉ l ∧ strip l ≠ etcMarker)
    (env : RunEnv) (agent : Agent) (tools : List ToolModel)
    (fuel : Nat) (st : LoopState)
    (hresp : env.generate st.messages
      = String.mk (joinLines (renderLines segs ++ (btcMarker ++ ' ' :: t) :: tail)))
    (hd : parse_delegation (env.generate st.messages) = Option.none)
    (hf : is_finished (env.generate st.messages) = false) :
    (parse_response (env.generate st.messages)).2 = [] ∧
    runLoop env agent tools (fuel + 1) st
      = runLoop env agent tools fuel
          ⟨st.messages ++ [⟨"assistant", env.generate st.messages⟩,
                           ⟨"user", env.continuePrompt⟩],
           st.history ++ [⟨st.iteration + 1, env.generate st.messages, [],
                           Option.none, false⟩],
           st.iteration + 1, st.delegation, false⟩ := by
  have hcalls : (parse_response (env.generate st.messages)).2 = [] := by
    rw [hresp, parse_response_unclosed hsegs htne hts htnl htail, hnocalls]
    rfl
  refine ⟨hcalls, ?_⟩
  rw [runLoop]
  have he : (parse_response (env.generate st.messages)).2.isEmpty = true := by
    rw [hcalls]; rfl
  simp only [he, if_true, hd, hf, Bool.false_eq_true, if_false]

/-- Witness for C7: the response `"BEGIN_TOOL_CALL mytool\nBEGIN_ARG x\n1"`
(an unclosed call) parses to zero tool calls and drives the loop to the
continue prompt. -/
theorem unclosed_call_dropped_and_loop_continues_witness :
    (parse_response (c7Env.generate c3State.messages)).2 = [] ∧
    runLoop c7Env c8Agent [] 1 c3State
      = runLoop c7Env c8Agent [] 0
          ⟨c3State.messages ++ [⟨"assistant", c7Env.generate c3State.messages⟩,
                                ⟨"user", c7Env.continuePrompt⟩],
           c3State.history ++ [⟨c3State.iteration + 1,
                                c7Env.generate c3State.messages, [],
                                Option.none, false⟩],
           c3State.iteration + 1, c3State.delegation, false⟩ :=
  @unclosed_call_dropped_and_loop_continues [] (by decide) (by decide)
    ['m','y','t','o','o','l'] (by decide) (by decide) (by decide)
    [['B','E','G','I','N','_','A','R','G',' ','x'], ['1']] (by decide)
    c7Env c8Agent [] 0 c3State (by decide) (by decide) (by decide)

-- ------------------------------------------------------------------
-- C4: the cycle scenario; C10: the at-most-one-turn invariant
-- ------------------------------------------------------------------

/-- C4: for the mutual-delegation team (edges A→B and B→A, entry point A),
`run_team` as written raises a `TypeError` in the very first round — the
`run_agent` call omits the required positional argument `tools` — for every
completion oracle.  No round completes, the cycle guard is never reached
with a non-empty visited set, and no `TeamResult` (and so no recorded
termination cause) is produced. -/
theorem run_team_cycle_raises_type_error (env : RunEnv) :
    run_team env c4Team "solve it" c4Agents 10 = .error typeErrorMissingTools := rfl

/-- Witness for C4 at a concrete oracle. -/
theorem run_team_cycle_raises_type_error_witness :
    run_team trivEnv c4Team "solve it" c4Agents 10
      = .error typeErrorMissingTools :=
  run_team_cycle_raises_type_error trivEnv

/-- Supporting fact for C4: with the missing-`tools` slip repaired, the
mutual-delegation scenario does terminate through the cycle guard in
`|agent_ids| + 1 = 3` rounds (two executed turns), within `max_rounds`;
the returned dictionary carries only the six data fields, none of which
records the termination cause. -/
theorem run_team_fixed_cycle_breaks :
    (run_team_fixed envAB c4Team "solve it" c4Agents 10).map
        (fun r => (r.rounds, r.execution_history.length,
                   r.agent_outputs.map Prod.fst))
      = .ok (3, 2, ["A", "B"]) := by decide

/-- C10: `run_team` as written raises the missing-`tools` `TypeError` on
the first round for every oracle, so no execution history is ever
produced: the at-most-one-turn-per-agent invariant enforced by the
visited-set at the cited lines can only be exercised with the call
repaired (see `run_team_fixed_at_most_one_turn`). -/
theorem run_team_chain_raises_type_error (env : RunEnv) :
    run_team env c10Team "task" c10Agents 10 = .error typeErrorMissingTools := rfl

/-- Witness for C10 at a concrete oracle. -/
theorem run_team_chain_raises_type_error_witness :
    run_team trivEnv c10Team "task" c10Agents 10
      = .error typeErrorMissingTools :=
  run_team_chain_raises_type_error trivEnv

-- ------------------------------------------------------------------
-- C6: configuration errors are fatal and oracle-independent
-- ------------------------------------------------------------------

theorem validateEdges_has_error {ids : List String} {edges : List TeamEdge}
    {e : TeamEdge} (he : e ∈ edges)
    (h2 : ids.contains e.from_agent = false ∨ ids.contains e.to_agent = false) :
    ∃ msg, validateEdges ids edges = .error msg := by
  induction edges with
  | nil => cases he
  | cons e0 rest ih =>
    rw [validateEdges]
    by_cases hf : ids.contains e0.from_agent = false
    · rw [if_pos hf]
      exact ⟨_, rfl⟩
    · rw [if_neg hf]
      by_cases ht : ids.contains e0.to_agent = false
      · rw [if_pos ht]
        exact ⟨_, rfl⟩
      · rw [if_neg ht]
        rcases List.mem_cons.1 he with rfl | he'
        · rcases h2 with h2 | h2
          · exact absurd h2 hf
          · exact absurd h2 ht
        · exact ih he'

theorem checkAgents_has_error {agents : List (String × Agent)} :
    ∀ {ids : List String} {aid : String}, aid ∈ ids →
    (agents.lookup aid).isNone = true →
    ∃ msg, checkAgents agents ids = .error msg := by
  intro ids
  induction ids with
  | nil => intro aid h _; cases h
  | cons a0 rest ih =>
    intro aid hmem hnone
    rw [checkAgents]
    by_cases h0 : (agents.lookup a0).isNone = true
    · rw [if_pos h0]
      exact ⟨_, rfl⟩
    · rw [if_neg h0]
      rcases List.mem_cons.1 hmem with rfl | hmem'
      · exact absurd hnone h0
      · exact ih hmem' hnone

theorem validateEdges_ok_mem {ids : List String} {edges : List TeamEdge} {b : Bool}
    (h : validateEdges ids edges = .ok b) :
    ∀ e ∈ edges,
      ids.contains e.from_agent = true ∧ ids.contains e.to_agent = true := by
  induction edges with
  | nil => intro e he; cases he
  | cons e0 rest ih =>
    rw [validateEdges] at h
    by_cases hf : ids.contains e0.from_agent = false
    · rw [if_pos hf] at h; cases h
    · rw [if_neg hf] at h
      by_cases ht : ids.contains e0.to_agent = false
      · rw [if_pos ht] at h; cases h
      · rw [if_neg ht] at h
        intro e he
        rcases List.mem_cons.1 he with rfl | he'
        · exact ⟨Bool.eq_true_of_ne_false hf, Bool.eq_true_of_ne_false ht⟩
        · exact ih h e he'

theorem checkAgents_ok_mem {agents : List (String × Agent)} :
    ∀ {ids : List String}, checkAgents agents ids = .ok () →
    ∀ aid ∈ ids, (agents.lookup aid).isNone = false := by
  intro ids
  induction ids with
  | nil => intro _ aid h; cases h
  | cons a0 rest ih =>
    intro h aid hmem
    rw [checkAgents] at h
    by_cases h0 : (agents.lookup a0).isNone = true
    · rw [if_pos h0] at h; cases h
    · rw [if_neg h0] at h
      rcases List.mem_cons.1 hmem with rfl | hmem'
      · exact Bool.eq_false_iff.2 h0
      · exact ih h aid hmem'

/-- C6: whenever the team fails structural validation (entry point or an
edge endpoint outside the member list) or some member id does not resolve
to a known agent, `run_team` returns a configuration error that is the
same for every completion oracle: the failure is raised before anything
that could depend on a model call or an agent turn. -/
theorem run_team_config_error (team : Team) (task : String)
    (agents : List (String × Agent)) (mr : Nat)
    (h : team.agent_ids.contains team.entry_point = false
      ∨ (∃ e ∈ team.edges, team.agent_ids.contains e.from_agent = false
          ∨ team.agent_ids.contains e.to_agent = false)
      ∨ ∃ aid ∈ team.agent_ids, (agents.lookup aid).isNone = true) :
    ∃ msg, ∀ env, run_team env team task agents mr = .error msg := by
  cases hv : validate team with
  | error e =>
    refine ⟨e, fun env => ?_⟩
    unfold run_team
    rw [hv]
    rfl
  | ok b =>
    cases hc : checkAgents agents team.agent_ids with
    | error e =>
      refine ⟨e, fun env => ?_⟩
      unfold run_team
      rw [hv, hc]
      rfl
    | ok u =>
      exfalso
      rcases h with h1 | ⟨e, he, h2⟩ | ⟨aid, ha, h3⟩
      · unfold validate at hv
        rw [if_pos h1] at hv
        cases hv
      · unfold validate at hv
        by_cases h1 : team.agent_ids.contains team.entry_point = false
        · rw [if_pos h1] at hv; cases hv
        · rw [if_neg h1] at hv
          have hok := validateEdges_ok_mem hv e he
          rcases h2 with h2 | h2
          · rw [hok.1] at h2; cases h2
          · rw [hok.2] at h2; cases h2
      · have := checkAgents_ok_mem hc aid ha
        rw [h3] at this
        cases this

/-- Witness for C6 at a team whose entry point is not a member. -/
theorem run_team_config_error_witness :
    (c6Team.agent_ids.contains c6Team.entry_point = false
      ∨ (∃ e ∈ c6Team.edges, c6Team.agent_ids.contains e.from_agent = false
          ∨ c6Team.agent_ids.contains e.to_agent = false)
      ∨ ∃ aid ∈ c6Team.agent_ids, (c6Agents.lookup aid).isNone = true) ∧
    (∃ msg, ∀ env, run_team env c6Team "t" c6Agents 10 = .error msg) :=
  ⟨by decide, run_team_config_error c6Team "t" c6Agents 10 (by decide)⟩

-- ------------------------------------------------------------------
-- the repaired walker runs each agent at most once (supporting C10)
-- ------------------------------------------------------------------

theorem mem_get_neighbors {team : Team} {aid x : String}
    (hedges : ∀ e ∈ team.edges, e.to_agent ∈ team.agent_ids)
    (hx : x ∈ get_neighbors team aid) : x ∈ team.agent_ids := by
  rw [get_neighbors] at hx
  rcases List.mem_map.1 hx with ⟨e, hef, rfl⟩
  exact hedges e (List.mem_filter.1 hef).1

theorem nodup_append_singleton {l : List String} {a : String}
    (h : l.Nodup) (ha : a ∉ l) : (l ++ [a]).Nodup := by
  rw [List.nodup_append]
  refine ⟨h, List.nodup_singleton a, ?_⟩
  intro x hx hx'
  rw [List.mem_singleton] at hx'
  subst hx'
  exact ha hx

theorem nodup_subset_length {l l' : List String} (hnd : l.Nodup)
    (hsub : ∀ x ∈ l, x ∈ l') : l.length ≤ l'.length := by
  classical
  have h1 : l.toFinset.card = l.length := List.toFinset_card_of_nodup hnd
  have h2 : l.toFinset ⊆ l'.toFinset := by
    intro x hx
    rw [List.mem_toFinset] at hx ⊢
    exact hsub x hx
  have h3 : l.toFinset.card ≤ l'.toFinset.card := Finset.card_le_card h2
  have h4 : l'.toFinset.card ≤ l'.length := l'.toFinset_card_le
  omega

theorem foldl_dictInsert_fresh {α β : Type} (f : α → String) (g : α → β) :
    ∀ (hist : List α) (m : List (String × β)),
    (∀ e ∈ hist, f e ∉ m.map Prod.fst) → (hist.map f).Nodup →
    hist.foldl (fun m' en => dictInsert m' (f en) (g en)) m
      = m ++ hist.map fun e => (f e, g e) := by
  intro hist
  induction hist with
  | nil => intro m _ _; simp
  | cons e0 rest ih =>
    intro m hfresh hnd
    rw [List.map_cons] at hnd
    obtain ⟨hhead, hndrest⟩ := List.nodup_cons.1 hnd
    rw [List.foldl_cons, dictInsert_of_not_mem (hfresh e0 (by simp))]
    rw [ih (m ++ [(f e0, g e0)]) ?fresh hndrest]
    · simp
    case fresh =>
      intro x hx hmem
      simp only [List.map_append, List.mem_append, List.map_cons, List.map_nil,
        List.mem_singleton] at hmem
      rcases hmem with h1 | h2
      · exact hfresh x (List.mem_cons_of_mem e0 hx) h1
      · exact hhead (h2 ▸ List.mem_map_of_mem f hx)

theorem lookup_map_pair {α β : Type} (f : α → String) (g : α → β) :
    ∀ {hist : List α}, (hist.map f).Nodup → ∀ e ∈ hist,
    (hist.map fun x => (f x, g x)).lookup (f e) = some (g e) := by
  intro hist
  induction hist with
  | nil => intro _ e he; cases he
  | cons e0 rest ih =>
    intro hnd e he
    rw [List.map_cons] at hnd
    obtain ⟨hhead, hndrest⟩ := List.nodup_cons.1 hnd
    rcases List.mem_cons.1 he with rfl | he'
    · simp [List.lookup]
    · have hne : (f e == f e0) = false := by
        rw [beq_eq_false_iff_ne]
        intro hfe
        exact hhead (hfe ▸ List.mem_map_of_mem f he')
      simp only [List.map_cons, List.lookup, hne, Bool.false_eq_true, if_false]
      exact ih hndrest e he'

/-- The invariant of the repaired round loop: starting from accumulators
whose recorded agent ids are distinct, within the visited set and within
the team, every normal termination yields a history whose agent ids are
still distinct and within the team — an agent already visited is never run
again. -/
theorem teamWalkFixed_invariant (env : RunEnv) (team : Team)
    (agents : List (String × Agent))
    (hedges : ∀ e ∈ team.edges, e.to_agent ∈ team.agent_ids) :
    ∀ (fuel roundNum : Nat) (current : Option String) (task : String)
      (visited : List String) (chat : List TeamMsg) (hist : List ExecHistEntry)
      (chat' : List TeamMsg) (hist' : List ExecHistEntry) (r : Nat),
    (hist.map ExecHistEntry.agent_id).Nodup →
    (∀ aid ∈ hist.map ExecHistEntry.agent_id, visited.contains aid = true) →
    (∀ aid ∈ hist.map ExecHistEntry.agent_id, aid ∈ team.agent_ids) →
    (∀ aid, current = some aid → aid ∈ team.agent_ids) →
    teamWalkFixed env team agents fuel roundNum current task visited chat hist
      = .ok (chat', hist', r) →
    (hist'.map ExecHistEntry.agent_id).Nodup ∧
    ∀ aid ∈ hist'.map ExecHistEntry.agent_id, aid ∈ team.agent_ids := by
  intro fuel
  induction fuel with
  | zero =>
    intro roundNum current task visited chat hist chat' hist' r hnd hvis hids _ h
    injection h with h1
    injection h1 with hc h2
    injection h2 with hh hr
    subst hh
    exact ⟨hnd, hids⟩
  | succ fuel ih =>
    intro roundNum current task visited chat hist chat' hist' r hnd hvis hids hcur h
    cases current with
    | none =>
      injection h with h1
      injection h1 with hc h2
      injection h2 with hh hr
      subst hh
      exact ⟨hnd, hids⟩
    | some aid =>
      rw [teamWalkFixed.eq_def] at h
      simp only at h
      have haid : aid ∈ team.agent_ids := hcur aid rfl
      by_cases hvisaid : visited.contains aid = true
      · rw [if_pos hvisaid] at h
        injection h with h1
        injection h1 with hc h2
        injection h2 with hh hr
        subst hh
        exact ⟨hnd, hids⟩
      · rw [if_neg hvisaid] at h
        cases hlook : agents.lookup aid with
        | none => rw [hlook] at h; cases h
        | some agent =>
          rw [hlook] at h
          simp only at h
          -- the new accumulators after this round
          have hnotin : aid ∉ hist.map ExecHistEntry.agent_id := fun hmem =>
            hvisaid (hvis aid hmem)
          have hnd' : ((hist ++ [(⟨roundNum, aid, agent.name, task,
              run_agent env agent task [] (get_neighbors team aid) chat 10⟩ : ExecHistEntry)]).map
                ExecHistEntry.agent_id).Nodup := by
            simp only [List.map_append, List.map_cons, List.map_nil]
            exact nodup_append_singleton hnd hnotin
          have hvis' : ∀ x ∈ (hist ++ [(⟨roundNum, aid, agent.name, task,
              run_agent env agent task [] (get_neighbors team aid) chat 10⟩ : ExecHistEntry)]).map
                ExecHistEntry.agent_id, (aid :: visited).contains x = true := by
            intro x hx
            rw [List.map_append] at hx
            rcases List.mem_append.1 hx with h1 | h2
            · have hxm : x ∈ visited := List.mem_of_elem_eq_true (hvis x h1)
              simp [List.contains_cons]
              exact Or.inr hxm
            · simp only [List.map_cons, List.map_nil, List.mem_singleton] at h2
              subst h2
              simp [List.contains_cons]
          have hids' : ∀ x ∈ (hist ++ [(⟨roundNum, aid, agent.name, task,
              run_agent env agent task [] (get_neighbors team aid) chat 10⟩ : ExecHistEntry)]).map
                ExecHistEntry.agent_id, x ∈ team.agent_ids := by
            intro x hx
            rw [List.map_append] at hx
            rcases List.mem_append.1 hx with h1 | h2
            · exact hids x h1
            · simp only [List.map_cons, List.map_nil, List.mem_singleton] at h2
              subst h2
              exact haid
          cases hdel : (run_agent env agent task [] (get_neighbors team aid)
              chat 10).delegation with
          | some d =>
            rw [hdel] at h
            simp only at h
            by_cases hav : (get_neighbors team aid).contains d.to_agent = false
            · rw [if_pos hav] at h
              injection h with h1
              injection h1 with hc h2
              injection h2 with hh hr
              subst hh
              exact ⟨hnd', hids'⟩
            · rw [if_neg hav] at h
              by_cases hlk : (agents.lookup d.to_agent).isNone = true
              · rw [if_pos hlk] at h
                injection h with h1
                injection h1 with hc h2
                injection h2 with hh hr
                subst hh
                exact ⟨hnd', hids'⟩
              · rw [if_neg hlk] at h
                refine ih _ _ _ _ _ _ _ _ _ hnd' hvis' hids' ?_ h
                intro x hx
                injection hx with hx
                subst hx
                exact mem_get_neighbors hedges
                  (List.mem_of_elem_eq_true (Bool.eq_true_of_ne_false hav))
          | none =>
            rw [hdel] at h
            simp only at h
            cases hflt : (get_neighbors team aid).filter
                (fun x => !(aid :: visited).contains x) with
            | nil =>
              rw [hflt] at h
              injection h with h1
              injection h1 with hc h2
              injection h2 with hh hr
              subst hh
              exact ⟨hnd', hids'⟩
            | cons nxt others =>
              rw [hflt] at h
              simp only at h
              cases hlk2 : agents.lookup nxt with
              | none => rw [hlk2] at h; cases h
              | some nagent =>
                rw [hlk2] at h
                refine ih _ _ _ _ _ _ _ _ _ hnd' hvis' hids' ?_ h
                intro x hx
                injection hx with hx
                subst hx
                have hmemflt : nxt ∈ (get_neighbors team aid).filter
                    (fun y => !(aid :: visited).contains y) := by
                  rw [hflt]; exact List.mem_cons_self _ _
                exact mem_get_neighbors hedges (List.mem_filter.1 hmemflt).1

/-- On the repaired runner, each agent runs at most one turn per team run:
the execution history records distinct agent ids, all members of the team,
so it has at most `|team.agent_ids|` entries. -/
theorem run_team_fixed_at_most_one_turn (env : RunEnv) (team : Team)
    (task : String) (agents : List (String × Agent)) (max_rounds : Nat)
    (res : TeamResult)
    (h : run_team_fixed env team task agents max_rounds = .ok res) :
    (res.execution_history.map ExecHistEntry.agent_id).Nodup ∧
    (∀ aid ∈ res.execution_history.map ExecHistEntry.agent_id,
      aid ∈ team.agent_ids) ∧
    res.execution_history.length ≤ team.agent_ids.length := by
  unfold run_team_fixed at h
  cases hv : validate team with
  | error e => rw [hv] at h; cases h
  | ok b =>
    rw [hv] at h
    cases hca : checkAgents agents team.agent_ids with
    | error e => rw [hca] at h; cases h
    | ok u =>
      cases u
      rw [hca] at h
      have hentry : team.entry_point ∈ team.agent_ids := by
        rw [validate] at hv
        by_cases he : team.agent_ids.contains team.entry_point = false
        · rw [if_pos he] at hv; cases hv
        · exact List.mem_of_elem_eq_true (Bool.eq_true_of_ne_false he)
      have hedges : ∀ e ∈ team.edges, e.to_agent ∈ team.agent_ids := by
        intro e he
        rw [validate] at hv
        by_cases hep : team.agent_ids.contains team.entry_point = false
        · rw [if_pos hep] at hv; cases hv
        · rw [if_neg hep] at hv
          exact List.mem_of_elem_eq_true (validateEdges_ok_mem hv e he).2
      cases hwf : teamWalkFixed env team agents max_rounds 0
          (some team.entry_point) task [] [] [] with
      | error e => rw [hwf] at h; cases h
      | ok w =>
        obtain ⟨wc, wh, wr⟩ := w
        rw [hwf] at h
        injection h with h1
        have hinv := teamWalkFixed_invariant env team agents hedges
          max_rounds 0 (some team.entry_point) task [] [] [] wc wh wr
          (by simp) (by simp) (by simp)
          (fun x hx => by injection hx with hx; exact hx ▸ hentry)
          hwf
        have hexec : res.execution_history = wh := by
          rw [← h1]
          rfl
        rw [hexec]
        refine ⟨hinv.1, hinv.2, ?_⟩
        have := nodup_subset_length hinv.1 hinv.2
        simpa using this

end AgentEvo
